import Mathlib

/-!
# who-is-it: upload handler and image-created handler

A shallow embedding of the two Lambda handlers of the repository

* `handlers/image-upload/main.go`  (`UploadHandler`)
* `handlers/image-created/main.go` (`ImageCreatedHandler`)

The remote collaborators (S3, DynamoDB, Rekognition, the uuid generator) and
the library routines whose text is not part of the repository
(`encoding/json`, `encoding/base64`) are parameters of the handlers: every
theorem holds for all of their behaviours.  Remote calls thread an explicit
world state `σ`, so a collaborator may answer differently on every call.
Log lines are not modelled.
-/

namespace WhoIsIt

/-- Go `error` values, kept as their message. -/
abbrev Err := String

/-! ## DynamoDB attribute values -/

/-- The two shapes of `dynamodb.AttributeValue` the handlers build: `S` and `L`. -/
inductive AttributeValue where
  | S (s : String)
  | L (l : List AttributeValue)

/-- A DynamoDB item: attribute name to value, as the Go `map[string]*AttributeValue`. -/
abbrev Item := List (String × AttributeValue)

/-! ## image-upload -/

def tableRef : String := "Table"
def bucketRef : String := "Bucket"
def regionRef : String := "Region"

def StatusOK : Nat := 200
def StatusBadRequest : Nat := 400
def StatusInternalServerError : Nat := 500

/-- ImageUploadRequest is a JSON representation of raw request from the client. -/
structure ImageUploadRequest where
  ImageBase64 : String
  FileName : String
  Extension : String

/-- BodyResponse is used to generate the JSON response for the client. -/
structure BodyResponse where
  URL : String

/-- The two fields of `events.APIGatewayProxyResponse` the handler sets. -/
structure APIGatewayProxyResponse where
  Body : String
  StatusCode : Nat

/-- The fields of `s3manager.UploadInput` the handler sets. -/
structure UploadInput where
  Bucket : String
  Key : String
  Body : List UInt8
  ACL : String

/-- The fields of `dynamodb.PutItemInput` the handler sets. -/
structure PutItemInput where
  Item : Item
  TableName : String

/-- The remote writes `UploadHandler` can issue, in the order issued. -/
inductive UploadCall where
  | s3Upload (input : UploadInput)
  | dynamoPutItem (input : PutItemInput)

/-- Everything `UploadHandler` reaches outside its own text.

* `jsonUnmarshal` : `json.Unmarshal` into a fresh `ImageUploadRequest`
* `decodeString`  : `base64.StdEncoding.DecodeString`
* `quote`         : the JSON string literal `encoding/json` writes for a Go string
* `Getenv`        : `os.Getenv`
* `uuidNew`       : `uuid.New().String()`
* `Upload`        : `s3manager.Uploader.Upload`
* `PutItem`       : `dynamodb.PutItem`
-/
structure UploadDeps (σ : Type) where
  jsonUnmarshal : String → Except Err ImageUploadRequest
  decodeString : String → Except Err (List UInt8)
  quote : String → String
  Getenv : String → String
  uuidNew : σ → String × σ
  Upload : UploadInput → σ → Except Err Unit × σ
  PutItem : PutItemInput → σ → Except Err Unit × σ

/-- The validator tag `nonzero` on a string field: the string is not empty. -/
def nonzero (s : String) : Bool := s != ""

/-- The validator tag `regexp=^(jpg|png)$`: Go anchors `^` and `$` at the two
ends of the text, so the match is the whole string `jpg` or the whole string `png`. -/
def regexpJpgPng (s : String) : Bool := s == "jpg" || s == "png"

/-- The call `validator.Validate(reqJSON)` with the tags of `ImageUploadRequest`;
only the boolean is used by the handler other than for logging. -/
def Validate (req : ImageUploadRequest) : Bool :=
  nonzero req.ImageBase64 && nonzero req.FileName &&
    (nonzero req.Extension && regexpJpgPng req.Extension)

/-- The function `getImageNameWithExtension`: `fmt.Sprintf("%s.%s", key, ext)`. -/
def getImageNameWithExtension (key : String) (ext : String) : String :=
  key ++ "." ++ ext

/-- The function `getImagePublicURL`:
`fmt.Sprintf("http://%s.s3-%s.amazonaws.com/%s", bucketName, region, key)`. -/
def getImagePublicURL (getenv : String → String) (key : String) : String :=
  let bucketName := getenv bucketRef
  let region := getenv regionRef
  "http://" ++ bucketName ++ ".s3-" ++ region ++ ".amazonaws.com/" ++ key

/-- The call `json.Marshal(&res)` for a `BodyResponse`: an object with the single
member `url`.  Marshalling a struct of one string field has no failing case. -/
def jsonMarshal (quote : String → String) (res : BodyResponse) : Except Err String :=
  .ok ("\x7b\"url\":" ++ quote res.URL ++ "\x7d")

/-- The function `handleDynamoDBError`: every branch of its switch writes one
log line and returns, so the caller goes on. -/
def handleDynamoDBError (_err : Err) : Unit := ()

/-- What one invocation of `UploadHandler` leaves behind: the response, the
remote writes it issued (oldest first) and the world after it. -/
structure UploadRun (σ : Type) where
  response : APIGatewayProxyResponse
  calls : List UploadCall
  world : σ

/-- UploadHandler is executed for POST to the /celeb endpoint;
it uploads an image to s3 and returns a public URL to it. -/
def UploadHandler {σ : Type} (d : UploadDeps σ) (reqRawBody : String) (w : σ) : UploadRun σ :=
  match d.jsonUnmarshal reqRawBody with
  | .error _ => ⟨⟨"error unmarshalling request", StatusBadRequest⟩, [], w⟩
  | .ok reqJSON =>
    if !Validate reqJSON then
      ⟨⟨"validation request body failure\n", StatusBadRequest⟩, [], w⟩
    else
      match d.decodeString reqJSON.ImageBase64 with
      | .error _ => ⟨⟨"error decoding image base 64\n", StatusInternalServerError⟩, [], w⟩
      | .ok decoded =>
        let bucket := d.Getenv bucketRef
        let (uid, w1) := d.uuidNew w
        let key := getImageNameWithExtension uid reqJSON.Extension
        let upIn : UploadInput := ⟨bucket, key, decoded, "public-read"⟩
        match d.Upload upIn w1 with
        | (.error _, w2) =>
          ⟨⟨"unable to upload to s3\n", StatusBadRequest⟩, [.s3Upload upIn], w2⟩
        | (.ok _, w2) =>
          let table := d.Getenv tableRef
          let newItem : PutItemInput :=
            ⟨[("ID", .S uid), ("fileName", .S reqJSON.FileName),
              ("url", .S (getImagePublicURL d.Getenv key))], table⟩
          let (put, w3) := d.PutItem newItem w2
          let _ := match put with
            | .error err => handleDynamoDBError err
            | .ok _ => ()
          let res : BodyResponse := ⟨getImagePublicURL d.Getenv key⟩
          match jsonMarshal d.quote res with
          | .error e =>
            ⟨⟨e, StatusInternalServerError⟩, [.s3Upload upIn, .dynamoPutItem newItem], w3⟩
          | .ok resRaw =>
            ⟨⟨resRaw, StatusOK⟩, [.s3Upload upIn, .dynamoPutItem newItem], w3⟩

/-! ## DynamoDB update expressions

The semantics of the slice of DynamoDB that `ImageCreatedHandler` uses, as
documented for the service: a `SET` clause whose operands are attribute
paths, `:placeholders`, `if_not_exists` and `list_append`. -/

/-- The right-hand side of a `SET` action. -/
inductive Operand where
  | path (name : String)
  | value (placeholder : String)
  | ifNotExists (name : String) (dflt : Operand)
  | listAppend (a : Operand) (b : Operand)

/-- One action `path = operand` of a `SET` clause. -/
structure SetAction where
  path : String
  rhs : Operand

/-- An update expression made of a single `SET` clause. -/
abbrev UpdateExpression := List SetAction

/-- The concrete text of an operand. -/
def Operand.render : Operand → String
  | .path n => n
  | .value p => p
  | .ifNotExists n d => "if_not_exists(" ++ n ++ ", " ++ d.render ++ ")"
  | .listAppend a b => "list_append(" ++ a.render ++ ", " ++ b.render ++ ")"

/-- The concrete text of a `SET` clause, as passed in `UpdateItemInput.UpdateExpression`. -/
def renderUpdateExpression (acts : UpdateExpression) : String :=
  "SET " ++ ", ".intercalate (acts.map fun a => a.path ++ " = " ++ a.rhs.render)

/-- Attribute lookup in an item. -/
def getAttr : Item → String → Option AttributeValue
  | [], _ => none
  | (k, v) :: rest, n => if k = n then some v else getAttr rest n

/-- Attribute assignment in an item: replaces the attribute or adds it. -/
def setAttr : Item → String → AttributeValue → Item
  | [], n, v => [(n, v)]
  | (k, x) :: rest, n, v => if k = n then (k, v) :: rest else (k, x) :: setAttr rest n v

/-- Value of an operand against the item as it is before the update.
`if_not_exists(p, d)` is the attribute at `p` when the item has it and `d`
otherwise; `list_append(a, b)` needs two lists and concatenates them. -/
def evalOperand (item : Item) (vals : Item) : Operand → Except Err AttributeValue
  | .path n =>
    match getAttr item n with
    | some v => .ok v
    | none => .error "ValidationException: attribute does not exist in the item"
  | .value p =>
    match getAttr vals p with
    | some v => .ok v
    | none => .error "ValidationException: attribute value is not defined"
  | .ifNotExists n d =>
    match getAttr item n with
    | some v => .ok v
    | none => evalOperand item vals d
  | .listAppend a b =>
    match evalOperand item vals a with
    | .error e => .error e
    | .ok (.S _) => .error "ValidationException: incorrect operand type for list_append"
    | .ok (.L x) =>
      match evalOperand item vals b with
      | .error e => .error e
      | .ok (.S _) => .error "ValidationException: incorrect operand type for list_append"
      | .ok (.L y) => .ok (.L (x ++ y))

/-- All right-hand sides of a `SET` clause are read from the item before the update. -/
def evalActions (item : Item) (vals : Item) : List SetAction → Except Err (List (String × AttributeValue))
  | [] => .ok []
  | a :: rest =>
    match evalOperand item vals a.rhs with
    | .error e => .error e
    | .ok v =>
      match evalActions item vals rest with
      | .error e => .error e
      | .ok vs => .ok ((a.path, v) :: vs)

/-- The item after a `SET` clause: every action assigns its value; nothing
is written when one operand fails. -/
def applyUpdateExpression (item : Item) (vals : Item) (acts : UpdateExpression) : Except Err Item :=
  match evalActions item vals acts with
  | .error e => .error e
  | .ok assigns => .ok (assigns.foldl (fun it pv => setAttr it pv.1 pv.2) item)

/-- The fields of `dynamodb.UpdateItemInput` the handler sets.  The update
expression is kept as its syntax tree; `renderUpdateExpression` gives its text. -/
structure UpdateItemInput where
  Key : Item
  ExpressionAttributeValues : Item
  ReturnValues : String
  UpdateExpression : UpdateExpression
  TableName : String

/-- The Identity Index: the DynamoDB table with the string partition key `ID`. -/
abbrev Table := String → Option Item

/-- The empty table. -/
def emptyTable : Table := fun _ => none

/-- The call `UpdateItem` on the table, as one step of the store: the item
with the given key, or the key alone when there is none, is rewritten by the
update expression; a failing expression leaves the table as it was. -/
def updateItem (t : Table) (inp : UpdateItemInput) : Except Err Table :=
  match inp.Key with
  | [(k, .S id)] =>
    if k = "ID" then
      match applyUpdateExpression ((t id).getD inp.Key) inp.ExpressionAttributeValues
          inp.UpdateExpression with
      | .error e => .error e
      | .ok item => .ok (fun j => if j = id then some item else t j)
    else .error "ValidationException: the provided key element does not match the schema"
  | _ => .error "ValidationException: the provided key element does not match the schema"

/-- A sequence of `UpdateItem` calls reaching the table one after the other. -/
def applySchedule : Table → List UpdateItemInput → Except Err Table
  | t, [] => .ok t
  | t, inp :: rest =>
    match updateItem t inp with
    | .error e => .error e
    | .ok t1 => applySchedule t1 rest

/-- All orders in which the store can receive the requests of two writers,
each writer sending its own requests in order. -/
def interleavings {α : Type} : List α → List α → List (List α)
  | [], ys => [ys]
  | x :: xs, [] => [x :: xs]
  | x :: xs, y :: ys =>
    (interleavings xs (y :: ys)).map (x :: ·) ++ (interleavings (x :: xs) ys).map (y :: ·)
termination_by xs ys => xs.length + ys.length

/-- The list of image URLs an item stores (`celeb_images`), if it stores a list. -/
def imagesOf (it : Item) : Option (List AttributeValue) :=
  match getAttr it "celeb_images" with
  | some (.L l) => some l
  | _ => none

/-! ## image-created -/

/-- The fields of `events.S3EventRecord` that the handler and its helper read. -/
structure S3EventRecord where
  AWSRegion : String
  BucketName : String
  ObjectKey : String

/-- The struct `events.S3Event`, whose one member `Records` is a Go slice:
`Records` are the elements up to the length of the slice, `spare` the
elements its backing array keeps past the length, left there by an earlier,
longer value of the slice. -/
structure S3Event where
  Records : List S3EventRecord
  spare : List S3EventRecord

/-- What the JSON text of one element of `Records` says about the fields the
handler reads: `none` for a member the text does not mention (or gives as
`null`), `some v` for a member it sets. -/
structure S3RecordText where
  AWSRegion : Option String
  BucketName : Option String
  ObjectKey : Option String

/-- The field of `events.SQSMessage` the handler reads. -/
structure SQSMessage where
  Body : String

/-- The struct `events.SQSEvent`. -/
structure SQSEvent where
  Records : List SQSMessage

/-- The struct `rekognition.RecognizeCelebritiesInput`: `Image.S3Object.{Bucket, Name}`. -/
structure RecognizeCelebritiesInput where
  Bucket : String
  Name : String

/-- The fields of `rekognition.Celebrity` the handler reads; the service sets
both for every celebrity it returns, so the two pointers are read as values. -/
structure Celebrity where
  Id : String
  Name : String

/-- A detected face that matched no celebrity; only counted. -/
structure ComparedFace where
  Confidence : Nat

/-- The fields of `rekognition.RecognizeCelebritiesOutput` the handler reads. -/
structure RecognizeCelebritiesOutput where
  CelebrityFaces : List Celebrity
  UnrecognizedFaces : List ComparedFace

/-- Everything `ImageCreatedHandler` reaches outside its own text.

* `decodeRecords` : what the JSON text of a message body says about the member
  `Records` of an `events.S3Event`: an error when `json.Unmarshal` fails,
  `none` when the text is valid and has no such member, `some js` when it has,
  `js` being its elements in order (the empty list also for `null`)
* `Getenv` : `os.Getenv`
* `GetPublicURLFromRecord` : `awshelpers.GetPublicURLFromRecord`
* `RecognizeCelebrities` : `rekognition.RecognizeCelebrities`
* `UpdateItem` : `dynamodb.UpdateItem`; the returned attributes are not used
-/
structure CreatedDeps (σ : Type) where
  decodeRecords : String → Except Err (Option (List S3RecordText))
  Getenv : String → String
  GetPublicURLFromRecord : S3EventRecord → String
  RecognizeCelebrities : RecognizeCelebritiesInput → σ → Except Err RecognizeCelebritiesOutput × σ
  UpdateItem : UpdateItemInput → σ → Except Err Unit × σ

/-- Modelled from the spec: `awshelpers.HandleRekognitionError`, of the package
`pkg/awshelpers`, whose text is not among the sources.  The specification has
a recognition failure propagate as the failure of the handler, so the helper
reports the error and returns, as `handleDynamoDBError` of image-upload does. -/
def awshelpers.HandleRekognitionError (_err : Err) : Unit := ()

/-- Modelled from the spec: `awshelpers.HandleDynamoDBError`, of the package
`pkg/awshelpers`, whose text is not among the sources.  The specification has
a failed merge update abort the batch the same way, so the helper reports the
error and returns. -/
def awshelpers.HandleDynamoDBError (_err : Err) : Unit := ()

/-- The zero value of `events.S3EventRecord`. -/
def zeroRecord : S3EventRecord := ⟨"", "", ""⟩

/-- Decoding one JSON object into a record that already holds a value: a
member the text sets is overwritten, a member it does not mention keeps what
the record held. -/
def decodeInto (base : S3EventRecord) (j : S3RecordText) : S3EventRecord :=
  ⟨j.AWSRegion.getD base.AWSRegion, j.BucketName.getD base.BucketName,
    j.ObjectKey.getD base.ObjectKey⟩

/-- Decoding a JSON array into a slice, given the elements of its backing
array: element `i` of the text is decoded into element `i` of the array, and
into the zero value where the array has no element `i`. -/
def decodeArray : List S3RecordText → List S3EventRecord → List S3EventRecord
  | [], _ => []
  | j :: js, [] => decodeInto zeroRecord j :: decodeArray js []
  | j :: js, b :: bs => decodeInto b j :: decodeArray js bs

/-- The call `json.Unmarshal([]byte(body), &s3Ev)` on a variable that already
holds a value.  A body without the member `Records` leaves the slice as it
is.  A body with the member decodes its elements into the elements the slice
and its backing array already hold; the slice then has the length of the
array of the text and the array keeps what lies past it.  An empty array (or
`null`) gives a fresh empty slice. -/
def jsonUnmarshalS3Event (decodeRecords : String → Except Err (Option (List S3RecordText)))
    (body : String) (s3Ev : S3Event) : Except Err S3Event :=
  match decodeRecords body with
  | .error e => .error e
  | .ok none => .ok s3Ev
  | .ok (some []) => .ok ⟨[], []⟩
  | .ok (some (j :: js)) =>
    .ok ⟨decodeArray (j :: js) (s3Ev.Records ++ s3Ev.spare),
      (s3Ev.Records ++ s3Ev.spare).drop (j :: js).length⟩

/-- The update expression of the handler:
`SET celeb_images = list_append(if_not_exists(celeb_images, :empty_list), :celeb_images), celeb_name = if_not_exists(celeb_name, :celeb_name)`. -/
def mergeExpression : UpdateExpression :=
  [⟨"celeb_images",
      .listAppend (.ifNotExists "celeb_images" (.value ":empty_list")) (.value ":celeb_images")⟩,
   ⟨"celeb_name", .ifNotExists "celeb_name" (.value ":celeb_name")⟩]

/-- The `dynamodb.UpdateItemInput` the handler builds for one recognised
celebrity of one object record. -/
def mergeUpdateInput (getPublicURLFromRecord : S3EventRecord → String) (table : String)
    (s3Record : S3EventRecord) (celeb : Celebrity) : UpdateItemInput :=
  let newImageURL : AttributeValue := .S (getPublicURLFromRecord s3Record)
  let images : List AttributeValue := [] ++ [newImageURL]
  { Key := [("ID", .S celeb.Id)]
    ExpressionAttributeValues :=
      [(":celeb_name", .S celeb.Name), (":celeb_images", .L images), (":empty_list", .L [])]
    ReturnValues := "ALL_NEW"
    UpdateExpression := mergeExpression
    TableName := table }

/-- One step of an invocation, with the error it ended in, if any. -/
inductive CreatedStep where
  | unmarshal (body : String) (failure : Option Err)
  | recognize (input : RecognizeCelebritiesInput) (failure : Option Err)
  | update (input : UpdateItemInput) (failure : Option Err)

/-- The error a step ended in. -/
def CreatedStep.failure : CreatedStep → Option Err
  | .unmarshal _ f => f
  | .recognize _ f => f
  | .update _ f => f

/-- The loop `for _, celeb := range celebRes.CelebrityFaces`: the error that
ended it (if any), the steps taken and the world after it. -/
def forCelebrityFaces {σ : Type} (d : CreatedDeps σ) (table : String) (s3Record : S3EventRecord) :
    List Celebrity → σ → Option Err × List CreatedStep × σ
  | [], w => (none, [], w)
  | celeb :: rest, w =>
    let updated := mergeUpdateInput d.GetPublicURLFromRecord table s3Record celeb
    match d.UpdateItem updated w with
    | (.error err, w1) =>
      let _ := awshelpers.HandleDynamoDBError err
      (some err, [.update updated (some err)], w1)
    | (.ok _, w1) =>
      let (r, steps, w2) := forCelebrityFaces d table s3Record rest w1
      (r, .update updated none :: steps, w2)

/-- The loop `for _, s3Record := range s3Ev.Records`. -/
def forS3Records {σ : Type} (d : CreatedDeps σ) :
    List S3EventRecord → σ → Option Err × List CreatedStep × σ
  | [], w => (none, [], w)
  | s3Record :: rest, w =>
    let celebIn : RecognizeCelebritiesInput := ⟨s3Record.BucketName, s3Record.ObjectKey⟩
    match d.RecognizeCelebrities celebIn w with
    | (.error err, w1) =>
      let _ := awshelpers.HandleRekognitionError err
      (some err, [.recognize celebIn (some err)], w1)
    | (.ok celebRes, w1) =>
      let table := d.Getenv "Table"
      match forCelebrityFaces d table s3Record celebRes.CelebrityFaces w1 with
      | (some err, steps, w2) => (some err, .recognize celebIn none :: steps, w2)
      | (none, steps, w2) =>
        let (r, steps2, w3) := forS3Records d rest w2
        (r, .recognize celebIn none :: (steps ++ steps2), w3)

/-- The loop `for _, record := range event.Records`.  The variable `s3Ev` is
declared before the loop, so each message is unmarshalled into the value the
previous message left. -/
def forSQSRecords {σ : Type} (d : CreatedDeps σ) :
    List SQSMessage → S3Event → σ → Option Err × List CreatedStep × σ
  | [], _, w => (none, [], w)
  | record :: rest, s3Ev, w =>
    match jsonUnmarshalS3Event d.decodeRecords record.Body s3Ev with
    | .error err => (some err, [.unmarshal record.Body (some err)], w)
    | .ok s3Ev1 =>
      match forS3Records d s3Ev1.Records w with
      | (some err, steps, w1) => (some err, .unmarshal record.Body none :: steps, w1)
      | (none, steps, w1) =>
        let (r, steps2, w2) := forSQSRecords d rest s3Ev1 w1
        (r, .unmarshal record.Body none :: (steps ++ steps2), w2)

/-- What one invocation of `ImageCreatedHandler` leaves behind: the returned
pair `(bool, error)`, the steps taken (oldest first) and the world after it. -/
structure CreatedRun (σ : Type) where
  result : Bool × Option Err
  steps : List CreatedStep
  world : σ

/-- ImageCreatedHandler is triggered after an object is uploaded to s3;
it runs a rekognition call to determine celebrities in the photo. -/
def ImageCreatedHandler {σ : Type} (d : CreatedDeps σ) (event : SQSEvent) (w : σ) : CreatedRun σ :=
  match forSQSRecords d event.Records ⟨[], []⟩ w with
  | (some err, steps, w1) => ⟨(false, some err), steps, w1⟩
  | (none, steps, w1) => ⟨(true, none), steps, w1⟩

/-- The inputs of the Recognition Service calls among the steps, in order. -/
def recognitionCalls : List CreatedStep → List RecognizeCelebritiesInput
  | [] => []
  | .recognize inp _ :: rest => inp :: recognitionCalls rest
  | _ :: rest => recognitionCalls rest

/-- The inputs of the merge updates among the steps, in order. -/
def mergeUpdates : List CreatedStep → List UpdateItemInput
  | [] => []
  | .update inp _ :: rest => inp :: mergeUpdates rest
  | _ :: rest => mergeUpdates rest

/-! ## The Identity Index behind the handler -/

/-- The world of an invocation whose `UpdateItem` calls reach the Identity
Index: the table, and whatever else decides how the services answer. -/
structure Cloud (ρ : Type) where
  table : Table
  rest : ρ

/-- The call `dynamodb.UpdateItem` against the table: `outage` decides whether the
request reaches the store (throttling, network, missing table); when it does,
the store applies `updateItem`. -/
def cloudUpdateItem {ρ : Type} (outage : UpdateItemInput → ρ → Option Err × ρ)
    (inp : UpdateItemInput) (c : Cloud ρ) : Except Err Unit × Cloud ρ :=
  match outage inp c.rest with
  | (some e, r) => (.error e, ⟨c.table, r⟩)
  | (none, r) =>
    match updateItem c.table inp with
    | .error e => (.error e, ⟨c.table, r⟩)
    | .ok t => (.ok (), ⟨t, r⟩)

/-- The collaborators of `ImageCreatedHandler` with DynamoDB given by the table
of the world; the Recognition Service does not touch the table. -/
def cloudDeps {ρ : Type} (decodeRecords : String → Except Err (Option (List S3RecordText)))
    (getenv : String → String) (getPublicURLFromRecord : S3EventRecord → String)
    (recognize : RecognizeCelebritiesInput → ρ → Except Err RecognizeCelebritiesOutput × ρ)
    (outage : UpdateItemInput → ρ → Option Err × ρ) : CreatedDeps (Cloud ρ) where
  decodeRecords := decodeRecords
  Getenv := getenv
  GetPublicURLFromRecord := getPublicURLFromRecord
  RecognizeCelebrities := fun inp c =>
    match recognize inp c.rest with
    | (res, r) => (res, ⟨c.table, r⟩)
  UpdateItem := cloudUpdateItem outage

/-! ## The reference merge of the specification -/

/-- An identity record as the specification describes it: a display name,
set once, and an ordered sequence of image URLs. -/
structure IdentityRecord where
  displayName : Option String
  imageUrls : List String
deriving DecidableEq

/-- Create-or-append in the words of the specification: without a record,
create it with the display name set and the single URL; with a record, append
the URL at the end, leave the display name if present and set it if absent. -/
def referenceMerge (existing : Option IdentityRecord) (name : String) (url : String) :
    IdentityRecord :=
  match existing with
  | none => ⟨some name, [url]⟩
  | some r =>
    match r.displayName with
    | some x => ⟨some x, r.imageUrls ++ [url]⟩
    | none => ⟨some name, r.imageUrls ++ [url]⟩

/-- The strings of a list of `S` values; `none` if an element is not a string. -/
def stringsOf : List AttributeValue → Option (List String)
  | [] => some []
  | .S s :: rest => (stringsOf rest).map (s :: ·)
  | .L _ :: _ => none

/-- The identity record an item of the table stands for: `celeb_name` is the
display name and `celeb_images` the URL sequence (no attribute, no URL yet);
`none` when an attribute has another type. -/
def identityRecordOf (it : Item) : Option IdentityRecord :=
  match getAttr it "celeb_name", getAttr it "celeb_images" with
  | some (.L _), _ => none
  | _, some (.S _) => none
  | name, images =>
    let displayName := match name with
      | some (.S n) => some n
      | _ => none
    match images with
    | some (.L l) => (stringsOf l).map fun urls => ⟨displayName, urls⟩
    | _ => some ⟨displayName, []⟩

/-- The identity record the table holds under an id. -/
def recordAt (t : Table) (id : String) : Option IdentityRecord :=
  (t id).bind identityRecordOf

/-! ## Notions used to state the properties -/

/-- The URL sequence stored under an id; empty when the table has no record
for the id or the record has no list yet. -/
def urlsAt (t : Table) (id : String) : List AttributeValue :=
  ((t id).bind imagesOf).getD []

/-- From `t` to `t1` no record was removed and every stored URL sequence is an
initial segment of the sequence stored now. -/
def AppendOnly (t t1 : Table) : Prop :=
  ∀ id it, t id = some it →
    ∃ it1, t1 id = some it1 ∧ ∀ l, imagesOf it = some l → ∃ l1, imagesOf it1 = some l1 ∧ l <+: l1

/-- The steps of a loop that ended with `r`: without an error no step failed;
with an error `e` the last step failed with `e` and no step before it failed. -/
def FailFast (r : Option Err) (steps : List CreatedStep) : Prop :=
  match r with
  | none => ∀ s ∈ steps, s.failure = none
  | some e =>
    ∃ pre s, steps = pre ++ [s] ∧ s.failure = some e ∧ ∀ p ∈ pre, p.failure = none

/-- The object records the body of one message carries: the elements of its
member `Records`, decoded on their own; none when the body has no such member. -/
def ownRecords {σ : Type} (d : CreatedDeps σ) (m : SQSMessage) : List S3EventRecord :=
  match d.decodeRecords m.Body with
  | .ok (some js) => decodeArray js []
  | _ => []

/-- The Recognition Service input for an object record. -/
def recognitionInputOf (r : S3EventRecord) : RecognizeCelebritiesInput :=
  ⟨r.BucketName, r.ObjectKey⟩

/-- The Recognition Service calls a batch asks for: message after message, one
call for each object record of the message's own body. -/
def expectedRecognitionCalls {σ : Type} (d : CreatedDeps σ) :
    List SQSMessage → List RecognizeCelebritiesInput
  | [] => []
  | m :: rest => (ownRecords d m).map recognitionInputOf ++ expectedRecognitionCalls d rest

/-! ## Sample collaborators

Small concrete collaborators, used to run the handlers on explicit inputs. -/

/-- A sample upload world: the next uuid number, whether S3 is reachable, the
keys of the objects S3 holds and the number of upload calls S3 has received. -/
structure DemoWorld where
  nextId : Nat
  s3Up : Bool
  objects : List String
  attempts : Nat

/-- Sample collaborators of `UploadHandler`: the body text `ok-jpg` is a valid
request with a decodable image, `bad-ext` has the extension `gif`, `bad-b64`
has an undecodable image, any other text is not JSON.  S3 refuses a request
without a bucket name, and every request while it is unreachable. -/
def demoUploadDeps : UploadDeps DemoWorld where
  jsonUnmarshal := fun body =>
    if body = "ok-jpg" then .ok ⟨"aGk=", "a.jpg", "jpg"⟩
    else if body = "bad-ext" then .ok ⟨"!", "a.gif", "gif"⟩
    else if body = "bad-b64" then .ok ⟨"!", "a.png", "png"⟩
    else .error "invalid character"
  decodeString := fun s => if s = "aGk=" then .ok [104, 105] else .error "illegal base64 data"
  quote := fun s => "\"" ++ s ++ "\""
  Getenv := fun k =>
    if k = "Bucket" then "testbucket" else if k = "Region" then "us-east-1" else "uploads"
  uuidNew := fun w =>
    (if w.nextId = 0 then "u0" else "u1", ⟨w.nextId + 1, w.s3Up, w.objects, w.attempts⟩)
  Upload := fun inp w =>
    if w.s3Up then
      if inp.Bucket = "" then
        (.error "InvalidBucketName", ⟨w.nextId, w.s3Up, w.objects, w.attempts + 1⟩)
      else (.ok (), ⟨w.nextId, w.s3Up, inp.Key :: w.objects, w.attempts + 1⟩)
    else (.error "RequestError", ⟨w.nextId, w.s3Up, w.objects, w.attempts + 1⟩)
  PutItem := fun _ w => (.ok (), w)

/-- The body of a notification with one object record. -/
def bodyOneRecord : String :=
  "\x7b\"Records\":[\x7b\"awsRegion\":\"us-east-1\",\"s3\":\x7b\"bucket\":\x7b\"name\":\"testbucket\"\x7d,\"object\":\x7b\"key\":\"u0.jpg\"\x7d\x7d\x7d]\x7d"

/-- The body of the test notification S3 sends when notifications are set up:
valid JSON without a member `Records`. -/
def bodyTestEvent : String :=
  "\x7b\"Service\":\"Amazon S3\",\"Event\":\"s3:TestEvent\",\"Bucket\":\"testbucket\"\x7d"

/-- The body of a notification whose one record gives the object key alone. -/
def bodyKeyOnly : String :=
  "\x7b\"Records\":[\x7b\"s3\":\x7b\"object\":\x7b\"key\":\"k2.png\"\x7d\x7d\x7d]\x7d"

/-- The object record of `bodyOneRecord`. -/
def demoRecord : S3EventRecord := ⟨"us-east-1", "testbucket", "u0.jpg"⟩

/-- Sample collaborators of `ImageCreatedHandler`: the three bodies above decode
as described and any other text is not JSON; every image shows the celebrity
`C1` named `Jane` and one unknown face; the recognition service is down when
the flag of the world is `false`; DynamoDB is always reachable. -/
def demoCreatedDeps : CreatedDeps (Cloud Bool) :=
  cloudDeps
    (fun body =>
      if body = bodyOneRecord then .ok (some [⟨some "us-east-1", some "testbucket", some "u0.jpg"⟩])
      else if body = bodyTestEvent then .ok none
      else if body = bodyKeyOnly then .ok (some [⟨none, none, some "k2.png"⟩])
      else .error "invalid character")
    (fun _ => "celebs")
    (fun r => "http://" ++ r.BucketName ++ ".s3-" ++ r.AWSRegion ++ ".amazonaws.com/" ++ r.ObjectKey)
    (fun _ up => (if up then .ok ⟨[⟨"C1", "Jane"⟩], [⟨50⟩]⟩ else .error "ThrottlingException", up))
    (fun _ up => (none, up))

/-- A sample Identity Index: one record, for `C1`, named `X`, with one URL. -/
def demoTable : Table := fun j =>
  if j = "C1" then
    some [("ID", .S "C1"), ("celeb_images", .L [.S "http://a"]), ("celeb_name", .S "X")]
  else none

/-! ## Theorems: image-upload -/

theorem nonzero_eq_true (s : String) : nonzero s = true ↔ s ≠ "" := by
  simp [nonzero]

theorem regexpJpgPng_eq_true (s : String) : regexpJpgPng s = true ↔ (s = "jpg" ∨ s = "png") := by
  simp [regexpJpgPng]

theorem Validate_eq_true (req : ImageUploadRequest) :
    Validate req = true ↔
      req.ImageBase64 ≠ "" ∧ req.FileName ≠ "" ∧ req.Extension ≠ "" ∧
        (req.Extension = "jpg" ∨ req.Extension = "png") := by
  simp [Validate, nonzero_eq_true, regexpJpgPng_eq_true, and_assoc]

/-- A request that passes validation, decodes and is stored: the run of the handler. -/
theorem UploadHandler_stored {σ : Type} (d : UploadDeps σ) (body : String) (w w1 w2 : σ)
    (req : ImageUploadRequest) (decoded : List UInt8) (uid : String)
    (hparse : d.jsonUnmarshal body = .ok req) (hvalid : Validate req = true)
    (hdec : d.decodeString req.ImageBase64 = .ok decoded) (huuid : d.uuidNew w = (uid, w1))
    (hup : d.Upload ⟨d.Getenv "Bucket", uid ++ "." ++ req.Extension, decoded, "public-read"⟩ w1
      = (.ok (), w2)) :
    UploadHandler d body w =
      ⟨⟨"\x7b\"url\":" ++ d.quote ("http://" ++ d.Getenv "Bucket" ++ ".s3-" ++ d.Getenv "Region"
            ++ ".amazonaws.com/" ++ (uid ++ "." ++ req.Extension)) ++ "\x7d", 200⟩,
        [.s3Upload ⟨d.Getenv "Bucket", uid ++ "." ++ req.Extension, decoded, "public-read"⟩,
         .dynamoPutItem ⟨[("ID", .S uid), ("fileName", .S req.FileName),
            ("url", .S ("http://" ++ d.Getenv "Bucket" ++ ".s3-" ++ d.Getenv "Region"
              ++ ".amazonaws.com/" ++ (uid ++ "." ++ req.Extension)))], d.Getenv "Table"⟩],
        (d.PutItem ⟨[("ID", .S uid), ("fileName", .S req.FileName),
            ("url", .S ("http://" ++ d.Getenv "Bucket" ++ ".s3-" ++ d.Getenv "Region"
              ++ ".amazonaws.com/" ++ (uid ++ "." ++ req.Extension)))], d.Getenv "Table"⟩ w2).2⟩ := by
  simp only [UploadHandler, hparse, hvalid, hdec, huuid, getImageNameWithExtension, bucketRef,
    regionRef, tableRef, hup, getImagePublicURL, jsonMarshal, StatusOK]
  simp

/-- A request that passes validation, decodes and is refused by the store: the run. -/
theorem UploadHandler_refused {σ : Type} (d : UploadDeps σ) (body : String) (w w1 w2 : σ)
    (req : ImageUploadRequest) (decoded : List UInt8) (uid : String) (e : Err)
    (hparse : d.jsonUnmarshal body = .ok req) (hvalid : Validate req = true)
    (hdec : d.decodeString req.ImageBase64 = .ok decoded) (huuid : d.uuidNew w = (uid, w1))
    (hup : d.Upload ⟨d.Getenv "Bucket", uid ++ "." ++ req.Extension, decoded, "public-read"⟩ w1
      = (.error e, w2)) :
    UploadHandler d body w =
      ⟨⟨"unable to upload to s3\n", 400⟩,
        [.s3Upload ⟨d.Getenv "Bucket", uid ++ "." ++ req.Extension, decoded, "public-read"⟩],
        w2⟩ := by
  simp only [UploadHandler, hparse, hvalid, hdec, huuid, getImageNameWithExtension, bucketRef,
    hup, StatusBadRequest]
  simp

/-- C1. A request whose body parses, whose three fields pass validation, whose
image decodes and whose storage write succeeds (the call `Upload` the handler
makes for this request, with the uuid generated for it, answers without error)
is answered with status 200 and the JSON object whose member `url` is
`http://` Bucket `.s3-` Region `.amazonaws.com/` uuid `.` extension.  The run
makes exactly that storage write, under the key uuid `.` extension, the key of
the URL, and goes on from the world the store left to the metadata write. -/
theorem UploadHandler_success_url {σ : Type} (d : UploadDeps σ) (body : String) (w w1 w2 : σ)
    (req : ImageUploadRequest) (decoded : List UInt8) (uid : String)
    (hparse : d.jsonUnmarshal body = .ok req)
    (h1 : req.ImageBase64 ≠ "") (h2 : req.FileName ≠ "")
    (h3 : req.Extension = "jpg" ∨ req.Extension = "png")
    (hdec : d.decodeString req.ImageBase64 = .ok decoded)
    (huuid : d.uuidNew w = (uid, w1))
    (hup : d.Upload ⟨d.Getenv "Bucket", uid ++ "." ++ req.Extension, decoded, "public-read"⟩ w1
      = (.ok (), w2)) :
    (UploadHandler d body w).response.StatusCode = 200 ∧
    (UploadHandler d body w).response.Body =
      "\x7b\"url\":" ++ d.quote ("http://" ++ d.Getenv "Bucket" ++ ".s3-" ++ d.Getenv "Region"
        ++ ".amazonaws.com/" ++ uid ++ "." ++ req.Extension) ++ "\x7d" ∧
    ∃ put, (UploadHandler d body w).calls =
        [.s3Upload ⟨d.Getenv "Bucket", uid ++ "." ++ req.Extension, decoded, "public-read"⟩,
         .dynamoPutItem put] ∧
      (UploadHandler d body w).world = (d.PutItem put w2).2 := by
  have hvalid : Validate req = true := by
    rw [Validate_eq_true]
    refine ⟨h1, h2, ?_, h3⟩
    rcases h3 with h | h <;> rw [h] <;> decide
  rw [UploadHandler_stored d body w w1 w2 req decoded uid hparse hvalid hdec huuid hup]
  refine ⟨rfl, ?_, _, rfl, rfl⟩
  simp [String.append_assoc]

theorem UploadHandler_success_url_witness :
    (UploadHandler demoUploadDeps "ok-jpg" ⟨0, true, [], 0⟩).response.StatusCode = 200 ∧
    (UploadHandler demoUploadDeps "ok-jpg" ⟨0, true, [], 0⟩).response.Body =
      "\x7b\"url\":" ++ demoUploadDeps.quote ("http://" ++ demoUploadDeps.Getenv "Bucket" ++ ".s3-"
        ++ demoUploadDeps.Getenv "Region" ++ ".amazonaws.com/" ++ "u0" ++ "." ++ "jpg") ++ "\x7d" ∧
    ∃ put, (UploadHandler demoUploadDeps "ok-jpg" ⟨0, true, [], 0⟩).calls =
        [.s3Upload ⟨demoUploadDeps.Getenv "Bucket", "u0" ++ "." ++ "jpg", [104, 105],
          "public-read"⟩,
         .dynamoPutItem put] ∧
      (UploadHandler demoUploadDeps "ok-jpg" ⟨0, true, [], 0⟩).world
        = (demoUploadDeps.PutItem put ⟨1, true, ["u0.jpg"], 1⟩).2 :=
  UploadHandler_success_url demoUploadDeps "ok-jpg" ⟨0, true, [], 0⟩ ⟨1, true, [], 0⟩
    ⟨1, true, ["u0.jpg"], 1⟩
    ⟨"aGk=", "a.jpg", "jpg"⟩ [104, 105] "u0" rfl (by decide) (by decide) (by decide) rfl rfl rfl

/-- C2. A request whose body does not unmarshal, or whose imageBase64, fileName
or extension is empty, or whose extension is neither the string `jpg` nor the
string `png`, is answered with status 400 and the run issues no storage write
and no metadata write; the base64 decoder is never consulted, so this holds
whatever it would say of imageBase64. -/
theorem UploadHandler_invalid_request {σ : Type} (d : UploadDeps σ) (body : String) (w : σ)
    (h : (∃ e, d.jsonUnmarshal body = .error e) ∨
      ∃ req, d.jsonUnmarshal body = .ok req ∧
        (req.ImageBase64 = "" ∨ req.FileName = "" ∨ req.Extension = "" ∨
          ¬ (req.Extension = "jpg" ∨ req.Extension = "png"))) :
    (UploadHandler d body w).response.StatusCode = 400 ∧
    (UploadHandler d body w).calls = [] ∧
    ∀ dec, UploadHandler { d with decodeString := dec } body w = UploadHandler d body w := by
  rcases h with ⟨e, he⟩ | ⟨req, hreq, hbad⟩
  · simp [UploadHandler, he, StatusBadRequest]
  · have hv : Validate req = false := by
      rw [← Bool.not_eq_true, Validate_eq_true]
      rintro ⟨a, b, c, k⟩
      rcases hbad with x | x | x | x
      · exact a x
      · exact b x
      · exact c x
      · exact x k
    simp [UploadHandler, hreq, hv, StatusBadRequest]

theorem UploadHandler_invalid_request_witness :
    (UploadHandler demoUploadDeps "bad-ext" ⟨0, true, [], 0⟩).response.StatusCode = 400 ∧
    (UploadHandler demoUploadDeps "bad-ext" ⟨0, true, [], 0⟩).calls = [] ∧
    ∀ dec, UploadHandler { demoUploadDeps with decodeString := dec } "bad-ext" ⟨0, true, [], 0⟩
      = UploadHandler demoUploadDeps "bad-ext" ⟨0, true, [], 0⟩ :=
  UploadHandler_invalid_request demoUploadDeps "bad-ext" ⟨0, true, [], 0⟩
    (Or.inr ⟨⟨"!", "a.gif", "gif"⟩, rfl, Or.inr (Or.inr (Or.inr (by decide)))⟩)

/-- C3. A request that parses and passes field validation but whose imageBase64
does not decode is answered with status 500, not with a success status, and the
run issues no storage write and no metadata write. -/
theorem UploadHandler_decode_error {σ : Type} (d : UploadDeps σ) (body : String) (w : σ)
    (req : ImageUploadRequest) (e : Err)
    (hparse : d.jsonUnmarshal body = .ok req)
    (h1 : req.ImageBase64 ≠ "") (h2 : req.FileName ≠ "")
    (h3 : req.Extension = "jpg" ∨ req.Extension = "png")
    (hdec : d.decodeString req.ImageBase64 = .error e) :
    (UploadHandler d body w).response.StatusCode = 500 ∧
    (UploadHandler d body w).response.StatusCode ≠ 200 ∧
    (UploadHandler d body w).calls = [] := by
  have hvalid : Validate req = true := by
    rw [Validate_eq_true]
    refine ⟨h1, h2, ?_, h3⟩
    rcases h3 with h | h <;> rw [h] <;> decide
  simp [UploadHandler, hparse, hvalid, hdec, StatusInternalServerError]

theorem UploadHandler_decode_error_witness :
    (UploadHandler demoUploadDeps "bad-b64" ⟨0, true, [], 0⟩).response.StatusCode = 500 ∧
    (UploadHandler demoUploadDeps "bad-b64" ⟨0, true, [], 0⟩).response.StatusCode ≠ 200 ∧
    (UploadHandler demoUploadDeps "bad-b64" ⟨0, true, [], 0⟩).calls = [] :=
  UploadHandler_decode_error demoUploadDeps "bad-b64" ⟨0, true, [], 0⟩ ⟨"!", "a.png", "png"⟩
    "illegal base64 data" rfl (by decide) (by decide) (by decide) rfl

/-- C4. A valid request whose storage write fails (the call `Upload` the
handler makes for this request answers with an error) is answered with status
400.  The run makes that storage write once and nothing else: its list of
remote writes is the one upload, with no second attempt and no metadata write,
and it ends in the world that one call left. -/
theorem UploadHandler_storage_failure {σ : Type} (d : UploadDeps σ) (body : String)
    (w w1 w2 : σ) (req : ImageUploadRequest) (decoded : List UInt8) (uid : String) (e : Err)
    (hparse : d.jsonUnmarshal body = .ok req)
    (h1 : req.ImageBase64 ≠ "") (h2 : req.FileName ≠ "")
    (h3 : req.Extension = "jpg" ∨ req.Extension = "png")
    (hdec : d.decodeString req.ImageBase64 = .ok decoded)
    (huuid : d.uuidNew w = (uid, w1))
    (hup : d.Upload ⟨d.Getenv "Bucket", uid ++ "." ++ req.Extension, decoded, "public-read"⟩ w1
      = (.error e, w2)) :
    (UploadHandler d body w).response.StatusCode = 400 ∧
    (UploadHandler d body w).calls =
      [.s3Upload ⟨d.Getenv "Bucket", uid ++ "." ++ req.Extension, decoded, "public-read"⟩] ∧
    (UploadHandler d body w).world = w2 := by
  have hvalid : Validate req = true := by
    rw [Validate_eq_true]
    refine ⟨h1, h2, ?_, h3⟩
    rcases h3 with h | h <;> rw [h] <;> decide
  rw [UploadHandler_refused d body w w1 w2 req decoded uid e hparse hvalid hdec huuid hup]
  exact ⟨rfl, rfl, rfl⟩

theorem UploadHandler_storage_failure_witness :
    (UploadHandler demoUploadDeps "ok-jpg" ⟨0, false, [], 0⟩).response.StatusCode = 400 ∧
    (UploadHandler demoUploadDeps "ok-jpg" ⟨0, false, [], 0⟩).calls =
      [.s3Upload ⟨demoUploadDeps.Getenv "Bucket", "u0" ++ "." ++ "jpg", [104, 105],
        "public-read"⟩] ∧
    (UploadHandler demoUploadDeps "ok-jpg" ⟨0, false, [], 0⟩).world = ⟨1, false, [], 1⟩ :=
  UploadHandler_storage_failure demoUploadDeps "ok-jpg" ⟨0, false, [], 0⟩ ⟨1, false, [], 0⟩
    ⟨1, false, [], 1⟩
    ⟨"aGk=", "a.jpg", "jpg"⟩ [104, 105] "u0" "RequestError" rfl (by decide) (by decide)
    (by decide) rfl rfl rfl

/-- C5. For a valid request whose storage write succeeds (the call `Upload` the
handler makes for this request answers without error), the response is the
same under any two behaviours of the metadata write, one that succeeds and one
that fails in particular: status 200 and the `url` object, whatever PutItem
returns.  Under either behaviour the run makes the storage write and then the
metadata write, and ends in the world that metadata write left. -/
theorem UploadHandler_metadata_outcome_irrelevant {σ : Type} (d : UploadDeps σ) (body : String)
    (w w1 w2 : σ) (req : ImageUploadRequest) (decoded : List UInt8) (uid : String)
    (p1 p2 : PutItemInput → σ → Except Err Unit × σ)
    (hparse : d.jsonUnmarshal body = .ok req)
    (h1 : req.ImageBase64 ≠ "") (h2 : req.FileName ≠ "")
    (h3 : req.Extension = "jpg" ∨ req.Extension = "png")
    (hdec : d.decodeString req.ImageBase64 = .ok decoded)
    (huuid : d.uuidNew w = (uid, w1))
    (hup : d.Upload ⟨d.Getenv "Bucket", uid ++ "." ++ req.Extension, decoded, "public-read"⟩ w1
      = (.ok (), w2)) :
    (UploadHandler { d with PutItem := p1 } body w).response =
      (UploadHandler { d with PutItem := p2 } body w).response ∧
    (UploadHandler { d with PutItem := p1 } body w).response =
      ⟨"\x7b\"url\":" ++ d.quote ("http://" ++ d.Getenv "Bucket" ++ ".s3-" ++ d.Getenv "Region"
        ++ ".amazonaws.com/" ++ uid ++ "." ++ req.Extension) ++ "\x7d", 200⟩ ∧
    ∃ put,
      (UploadHandler { d with PutItem := p1 } body w).calls =
        [.s3Upload ⟨d.Getenv "Bucket", uid ++ "." ++ req.Extension, decoded, "public-read"⟩,
         .dynamoPutItem put] ∧
      (UploadHandler { d with PutItem := p2 } body w).calls =
        [.s3Upload ⟨d.Getenv "Bucket", uid ++ "." ++ req.Extension, decoded, "public-read"⟩,
         .dynamoPutItem put] ∧
      (UploadHandler { d with PutItem := p1 } body w).world = (p1 put w2).2 ∧
      (UploadHandler { d with PutItem := p2 } body w).world = (p2 put w2).2 := by
  have hvalid : Validate req = true := by
    rw [Validate_eq_true]
    refine ⟨h1, h2, ?_, h3⟩
    rcases h3 with h | h <;> rw [h] <;> decide
  rw [UploadHandler_stored { d with PutItem := p1 } body w w1 w2 req decoded uid hparse hvalid
      hdec huuid hup,
    UploadHandler_stored { d with PutItem := p2 } body w w1 w2 req decoded uid hparse hvalid
      hdec huuid hup]
  refine ⟨rfl, ?_, _, rfl, rfl, rfl, rfl⟩
  simp [String.append_assoc]

theorem UploadHandler_metadata_outcome_irrelevant_witness :
    (UploadHandler { demoUploadDeps with PutItem := fun _ s => (.ok (), s) } "ok-jpg"
        ⟨0, true, [], 0⟩).response =
      (UploadHandler { demoUploadDeps with
        PutItem := fun _ s => (.error "ProvisionedThroughputExceededException", s) } "ok-jpg"
        ⟨0, true, [], 0⟩).response ∧
    (UploadHandler { demoUploadDeps with PutItem := fun _ s => (.ok (), s) } "ok-jpg"
        ⟨0, true, [], 0⟩).response =
      ⟨"\x7b\"url\":" ++ demoUploadDeps.quote ("http://" ++ demoUploadDeps.Getenv "Bucket" ++ ".s3-"
        ++ demoUploadDeps.Getenv "Region" ++ ".amazonaws.com/" ++ "u0" ++ "." ++ "jpg") ++ "\x7d",
        200⟩ ∧
    ∃ put,
      (UploadHandler { demoUploadDeps with PutItem := fun _ s => (.ok (), s) } "ok-jpg"
          ⟨0, true, [], 0⟩).calls =
        [.s3Upload ⟨demoUploadDeps.Getenv "Bucket", "u0" ++ "." ++ "jpg", [104, 105],
          "public-read"⟩,
         .dynamoPutItem put] ∧
      (UploadHandler { demoUploadDeps with
          PutItem := fun _ s => (.error "ProvisionedThroughputExceededException", s) } "ok-jpg"
          ⟨0, true, [], 0⟩).calls =
        [.s3Upload ⟨demoUploadDeps.Getenv "Bucket", "u0" ++ "." ++ "jpg", [104, 105],
          "public-read"⟩,
         .dynamoPutItem put] ∧
      (UploadHandler { demoUploadDeps with PutItem := fun _ s => (.ok (), s) } "ok-jpg"
          ⟨0, true, [], 0⟩).world = ((fun _ s => (.ok (), s) :
            PutItemInput → DemoWorld → Except Err Unit × DemoWorld) put ⟨1, true, ["u0.jpg"], 1⟩).2 ∧
      (UploadHandler { demoUploadDeps with
          PutItem := fun _ s => (.error "ProvisionedThroughputExceededException", s) } "ok-jpg"
          ⟨0, true, [], 0⟩).world = ((fun _ s => (.error "ProvisionedThroughputExceededException", s) :
            PutItemInput → DemoWorld → Except Err Unit × DemoWorld) put ⟨1, true, ["u0.jpg"], 1⟩).2 :=
  UploadHandler_metadata_outcome_irrelevant demoUploadDeps "ok-jpg" ⟨0, true, [], 0⟩
    ⟨1, true, [], 0⟩ ⟨1, true, ["u0.jpg"], 1⟩
    ⟨"aGk=", "a.jpg", "jpg"⟩ [104, 105] "u0" (fun _ s => (.ok (), s))
    (fun _ s => (.error "ProvisionedThroughputExceededException", s))
    rfl (by decide) (by decide) (by decide) rfl rfl rfl

/-! ## Theorems: the merge update -/

theorem getAttr_setAttr (it : Item) (n m : String) (v : AttributeValue) :
    getAttr (setAttr it n v) m = if n = m then some v else getAttr it m := by
  induction it with
  | nil => simp [setAttr, getAttr]
  | cons p rest ih =>
    obtain ⟨k, x⟩ := p
    by_cases hk : k = n
    · subst hk
      by_cases hm : k = m <;> simp [setAttr, getAttr, hm]
    · by_cases hm : k = m
      · subst hm
        simp [setAttr, getAttr, hk, Ne.symm hk]
      · simp [setAttr, getAttr, hk, hm, ih]

/-- The syntax tree `mergeExpression` is the expression text of the handler. -/
theorem render_mergeExpression :
    renderUpdateExpression mergeExpression =
      "SET celeb_images = list_append(if_not_exists(celeb_images, :empty_list), :celeb_images), celeb_name = if_not_exists(celeb_name, :celeb_name)" := by
  decide

/-- The item a merge update writes over the item `old`. -/
theorem applyUpdateExpression_merge (old : Item) (u nm : String) :
    applyUpdateExpression old
        [(":celeb_name", .S nm), (":celeb_images", .L ([] ++ [.S u])), (":empty_list", .L [])]
        mergeExpression =
      match getAttr old "celeb_images" with
      | some (.S _) => .error "ValidationException: incorrect operand type for list_append"
      | some (.L l) =>
        .ok (setAttr (setAttr old "celeb_images" (.L (l ++ [.S u]))) "celeb_name"
          ((getAttr old "celeb_name").getD (.S nm)))
      | none =>
        .ok (setAttr (setAttr old "celeb_images" (.L [.S u])) "celeb_name"
          ((getAttr old "celeb_name").getD (.S nm))) := by
  cases h : getAttr old "celeb_images" with
  | none =>
    cases h2 : getAttr old "celeb_name" <;>
      simp [applyUpdateExpression, evalActions, evalOperand, mergeExpression, h, h2, getAttr]
  | some v =>
    cases v with
    | S s => simp [applyUpdateExpression, evalActions, evalOperand, mergeExpression, h, getAttr]
    | L l =>
      cases h2 : getAttr old "celeb_name" <;>
        simp [applyUpdateExpression, evalActions, evalOperand, mergeExpression, h, h2, getAttr]

/-- What a merge update does to the table when the store accepts it: the
record of the celebrity holds the old URL sequence followed by the new URL, its
name is the stored one if there was one and the incoming one otherwise, and no
other record changes. -/
theorem updateItem_merge_of_ok (getURL : S3EventRecord → String) (table : String) (t t1 : Table)
    (r : S3EventRecord) (c : Celebrity)
    (h : updateItem t (mergeUpdateInput getURL table r c) = .ok t1) :
    (∃ it1, t1 c.Id = some it1 ∧ imagesOf it1 = some (urlsAt t c.Id ++ [.S (getURL r)]) ∧
      getAttr it1 "celeb_name" =
        some (((t c.Id).bind fun it => getAttr it "celeb_name").getD (.S c.Name))) ∧
    ∀ j, j ≠ c.Id → t1 j = t j := by
  simp only [updateItem, mergeUpdateInput, if_true, applyUpdateExpression_merge] at h
  cases hi : getAttr ((t c.Id).getD [("ID", .S c.Id)]) "celeb_images" with
  | none =>
    rw [hi] at h
    simp only [Except.ok.injEq] at h
    subst h
    have hu : urlsAt t c.Id = [] := by
      cases ht : t c.Id with
      | none => simp [urlsAt, ht]
      | some it =>
        rw [ht] at hi
        simp only [Option.getD_some] at hi
        simp [urlsAt, ht, imagesOf, hi]
    refine ⟨⟨_, if_pos rfl, ?_, ?_⟩, fun j hj => by simp [hj]⟩
    · simp [imagesOf, getAttr_setAttr, hu]
    · cases ht : t c.Id <;> simp [getAttr_setAttr, getAttr]
  | some v =>
    rw [hi] at h
    cases v with
    | S s => simp at h
    | L l =>
      simp only [Except.ok.injEq] at h
      subst h
      have hu : urlsAt t c.Id = l := by
        cases ht : t c.Id with
        | none =>
          rw [ht] at hi
          simp [getAttr] at hi
        | some it =>
          rw [ht] at hi
          simp only [Option.getD_some] at hi
          simp [urlsAt, ht, imagesOf, hi]
      refine ⟨⟨_, if_pos rfl, ?_, ?_⟩, fun j hj => by simp [hj]⟩
      · simp [imagesOf, getAttr_setAttr, hu]
      · cases ht : t c.Id <;> simp [getAttr_setAttr, getAttr]

/-- The store accepts a merge update unless the record of the celebrity holds
a string where the URL list belongs. -/
theorem updateItem_merge_ok (getURL : S3EventRecord → String) (table : String) (t : Table)
    (r : S3EventRecord) (c : Celebrity)
    (hwf : ∀ it s, t c.Id = some it → getAttr it "celeb_images" ≠ some (.S s)) :
    ∃ t1, updateItem t (mergeUpdateInput getURL table r c) = .ok t1 := by
  simp only [updateItem, mergeUpdateInput, if_true, applyUpdateExpression_merge]
  cases hi : getAttr ((t c.Id).getD [("ID", .S c.Id)]) "celeb_images" with
  | none => exact ⟨_, rfl⟩
  | some v =>
    cases v with
    | L l => exact ⟨_, rfl⟩
    | S s =>
      exfalso
      cases ht : t c.Id with
      | none =>
        rw [ht] at hi
        simp [getAttr] at hi
      | some it =>
        rw [ht] at hi
        exact hwf it s ht hi

theorem stringsOf_append_S (l : List AttributeValue) (u : String) :
    stringsOf (l ++ [.S u]) = (stringsOf l).map (· ++ [u]) := by
  induction l with
  | nil => simp [stringsOf]
  | cons a rest ih =>
    cases a with
    | S s => cases h : stringsOf rest <;> simp [stringsOf, ih, h]
    | L x => simp [stringsOf]

theorem referenceMerge_some (r : IdentityRecord) (name u : String) :
    referenceMerge (some r) name u = ⟨some (r.displayName.getD name), r.imageUrls ++ [u]⟩ := by
  obtain ⟨dn, urls⟩ := r
  cases dn <;> simp [referenceMerge]

/-- The shape of an item that stands for an identity record. -/
theorem identityRecordOf_some (it : Item) (r : IdentityRecord) (h : identityRecordOf it = some r) :
    (getAttr it "celeb_name" = r.displayName.map .S) ∧
    ((getAttr it "celeb_images" = none ∧ r.imageUrls = []) ∨
      ∃ l, getAttr it "celeb_images" = some (.L l) ∧ stringsOf l = some r.imageUrls) := by
  unfold identityRecordOf at h
  cases hn : getAttr it "celeb_name" with
  | none =>
    cases hi : getAttr it "celeb_images" with
    | none =>
      rw [hn, hi] at h
      simp only [Option.some.injEq] at h
      subst h
      simp
    | some v =>
      cases v with
      | S s => rw [hn, hi] at h; simp at h
      | L l =>
        rw [hn, hi] at h
        simp only [Option.map_eq_some'] at h
        obtain ⟨urls, hs, rfl⟩ := h
        simp [hs]
  | some nv =>
    cases nv with
    | L x => rw [hn] at h; simp at h
    | S n =>
      cases hi : getAttr it "celeb_images" with
      | none =>
        rw [hn, hi] at h
        simp only [Option.some.injEq] at h
        subst h
        simp
      | some v =>
        cases v with
        | S s => rw [hn, hi] at h; simp at h
        | L l =>
          rw [hn, hi] at h
          simp only [Option.map_eq_some'] at h
          obtain ⟨urls, hs, rfl⟩ := h
          simp [hs]

/-- An item with a string name and a list of string URLs stands for the record
with that name and those URLs. -/
theorem identityRecordOf_of_attrs (it : Item) (n : String) (l : List AttributeValue)
    (urls : List String) (hn : getAttr it "celeb_name" = some (.S n))
    (hi : imagesOf it = some l) (hs : stringsOf l = some urls) :
    identityRecordOf it = some ⟨some n, urls⟩ := by
  have hi2 : getAttr it "celeb_images" = some (.L l) := by
    unfold imagesOf at hi
    cases hg : getAttr it "celeb_images" with
    | none => rw [hg] at hi; simp at hi
    | some v =>
      cases v with
      | S s => rw [hg] at hi; simp at hi
      | L x => rw [hg] at hi; simp at hi; rw [hi]
  simp [identityRecordOf, hn, hi2, hs]

/-- The merge update against the reference, for a table without a record for
the celebrity or with a well-typed one. -/
theorem updateItem_merge_reference (getURL : S3EventRecord → String) (table : String)
    (t : Table) (r : S3EventRecord) (c : Celebrity)
    (h : t c.Id = none ∨ ∃ it rec, t c.Id = some it ∧ identityRecordOf it = some rec) :
    ∃ t1, updateItem t (mergeUpdateInput getURL table r c) = .ok t1 ∧
      recordAt t1 c.Id = some (referenceMerge (recordAt t c.Id) c.Name (getURL r)) ∧
      ∀ j, j ≠ c.Id → t1 j = t j := by
  have hwf : ∀ it s, t c.Id = some it → getAttr it "celeb_images" ≠ some (.S s) := by
    intro it s hit hs
    rcases h with h | ⟨it2, rec, h2, h3⟩
    · rw [h] at hit; cases hit
    · rw [h2] at hit
      have e : it2 = it := Option.some.inj hit
      rw [← e] at hs
      rcases (identityRecordOf_some it2 rec h3).2 with ⟨h4, _⟩ | ⟨l, h4, _⟩ <;>
        rw [h4] at hs <;> cases hs
  obtain ⟨t1, ht1⟩ := updateItem_merge_ok getURL table t r c hwf
  obtain ⟨⟨it1, hit1, himg, hname⟩, hother⟩ := updateItem_merge_of_ok getURL table t t1 r c ht1
  refine ⟨t1, ht1, ?_, hother⟩
  rcases h with h | ⟨it2, rec, h2, h3⟩
  · have hu : urlsAt t c.Id = [] := by simp [urlsAt, h]
    rw [h] at hname
    rw [hu] at himg
    simp only [Option.none_bind, Option.getD_none] at hname
    simp only [recordAt, hit1, h, Option.some_bind, Option.none_bind, referenceMerge]
    exact identityRecordOf_of_attrs it1 c.Name _ [getURL r] hname himg (by simp [stringsOf])
  · obtain ⟨hn, hi⟩ := identityRecordOf_some it2 rec h3
    rw [h2] at hname
    simp only [Option.some_bind, hn] at hname
    have hname2 : getAttr it1 "celeb_name" = some (.S (rec.displayName.getD c.Name)) := by
      rw [hname]
      cases rec.displayName <;> simp
    simp only [recordAt, hit1, h2, Option.some_bind, h3, referenceMerge_some]
    rcases hi with ⟨h4, h5⟩ | ⟨l, h4, h5⟩
    · have hu : urlsAt t c.Id = [] := by simp [urlsAt, h2, imagesOf, h4]
      rw [hu] at himg
      rw [h5]
      exact identityRecordOf_of_attrs it1 _ _ _ hname2 himg (by simp [stringsOf])
    · have hu : urlsAt t c.Id = l := by simp [urlsAt, h2, imagesOf, h4]
      rw [hu] at himg
      exact identityRecordOf_of_attrs it1 _ _ _ hname2 himg (by simp [stringsOf_append_S, h5])

/-- C6. The merge update the handler issues for a recognised celebrity
(id, name) and the image URL u carries the expression text of the source and,
under the semantics of that expression, is the reference create-or-append:
the store accepts it and the record it leaves is `referenceMerge` of the record
before.  Spelled out: without a record the result has the name and the URLs
[u]; a record with URLs L and name X becomes L ++ [u] with the name still X;
a record with URLs L and no name becomes L ++ [u] with the incoming name. -/
theorem merge_update_is_create_or_append (getURL : S3EventRecord → String) (table : String)
    (t : Table) (r : S3EventRecord) (c : Celebrity)
    (h : t c.Id = none ∨ ∃ it rec, t c.Id = some it ∧ identityRecordOf it = some rec) :
    renderUpdateExpression (mergeUpdateInput getURL table r c).UpdateExpression =
      "SET celeb_images = list_append(if_not_exists(celeb_images, :empty_list), :celeb_images), celeb_name = if_not_exists(celeb_name, :celeb_name)" ∧
    ∃ t1, updateItem t (mergeUpdateInput getURL table r c) = .ok t1 ∧
      recordAt t1 c.Id = some (referenceMerge (recordAt t c.Id) c.Name (getURL r)) ∧
      (t c.Id = none → recordAt t1 c.Id = some ⟨some c.Name, [getURL r]⟩) ∧
      (∀ X L, recordAt t c.Id = some ⟨some X, L⟩ →
        recordAt t1 c.Id = some ⟨some X, L ++ [getURL r]⟩) ∧
      (∀ L, recordAt t c.Id = some ⟨none, L⟩ →
        recordAt t1 c.Id = some ⟨some c.Name, L ++ [getURL r]⟩) := by
  refine ⟨render_mergeExpression, ?_⟩
  obtain ⟨t1, h1, h2, _⟩ := updateItem_merge_reference getURL table t r c h
  refine ⟨t1, h1, h2, ?_, ?_, ?_⟩
  · intro hn
    rw [h2]
    simp [recordAt, hn, referenceMerge]
  · intro X L hX
    rw [h2, hX]
    simp [referenceMerge]
  · intro L hL
    rw [h2, hL]
    simp [referenceMerge]

theorem merge_update_is_create_or_append_witness :
    renderUpdateExpression (mergeUpdateInput (fun r => r.ObjectKey) "celebs"
        ⟨"us-east-1", "testbucket", "http://b"⟩ ⟨"C1", "Y"⟩).UpdateExpression =
      "SET celeb_images = list_append(if_not_exists(celeb_images, :empty_list), :celeb_images), celeb_name = if_not_exists(celeb_name, :celeb_name)" ∧
    ∃ t1, updateItem demoTable (mergeUpdateInput (fun r => r.ObjectKey) "celebs"
        ⟨"us-east-1", "testbucket", "http://b"⟩ ⟨"C1", "Y"⟩) = .ok t1 ∧
      recordAt t1 "C1" = some (referenceMerge (recordAt demoTable "C1") "Y" "http://b") ∧
      (demoTable "C1" = none → recordAt t1 "C1" = some ⟨some "Y", ["http://b"]⟩) ∧
      (∀ X L, recordAt demoTable "C1" = some ⟨some X, L⟩ →
        recordAt t1 "C1" = some ⟨some X, L ++ ["http://b"]⟩) ∧
      (∀ L, recordAt demoTable "C1" = some ⟨none, L⟩ →
        recordAt t1 "C1" = some ⟨some "Y", L ++ ["http://b"]⟩) :=
  merge_update_is_create_or_append (fun r => r.ObjectKey) "celebs" demoTable
    ⟨"us-east-1", "testbucket", "http://b"⟩ ⟨"C1", "Y"⟩
    (Or.inr ⟨[("ID", .S "C1"), ("celeb_images", .L [.S "http://a"]), ("celeb_name", .S "X")],
      ⟨some "X", ["http://a"]⟩, rfl, by decide⟩)

/-! ## Theorems: fail-fast batches -/

theorem failFast_single (s : CreatedStep) (e : Err) (hs : s.failure = some e) :
    FailFast (some e) [s] :=
  ⟨[], s, rfl, hs, by simp⟩

theorem failFast_cons (s : CreatedStep) (hs : s.failure = none) (r : Option Err)
    (steps : List CreatedStep) (h : FailFast r steps) : FailFast r (s :: steps) := by
  cases r with
  | none =>
    intro x hx
    rcases List.mem_cons.1 hx with rfl | hx
    · exact hs
    · exact h x hx
  | some e =>
    obtain ⟨pre, last, h1, h2, h3⟩ := h
    refine ⟨s :: pre, last, by simp [h1], h2, ?_⟩
    intro x hx
    rcases List.mem_cons.1 hx with rfl | hx
    · exact hs
    · exact h3 x hx

theorem failFast_append (s1 : List CreatedStep) (h1 : FailFast none s1) (r : Option Err)
    (s2 : List CreatedStep) (h2 : FailFast r s2) : FailFast r (s1 ++ s2) := by
  induction s1 with
  | nil => simpa using h2
  | cons a rest ih =>
    have ha : a.failure = none := h1 a (List.mem_cons_self _ _)
    have hrest : FailFast none rest := fun x hx => h1 x (List.mem_cons_of_mem _ hx)
    exact failFast_cons a ha r _ (ih hrest)

theorem forCelebrityFaces_failFast {σ : Type} (d : CreatedDeps σ) (table : String)
    (r : S3EventRecord) (cs : List Celebrity) (w : σ) :
    FailFast (forCelebrityFaces d table r cs w).1 (forCelebrityFaces d table r cs w).2.1 := by
  induction cs generalizing w with
  | nil => simp [forCelebrityFaces, FailFast]
  | cons c rest ih =>
    cases hU : d.UpdateItem (mergeUpdateInput d.GetPublicURLFromRecord table r c) w with
    | mk res w1 =>
      cases res with
      | error e =>
        simp only [forCelebrityFaces, hU]
        exact failFast_single _ e rfl
      | ok u =>
        simp only [forCelebrityFaces, hU]
        exact failFast_cons _ (by rfl) _ _ (ih w1)

theorem forS3Records_failFast {σ : Type} (d : CreatedDeps σ) (rs : List S3EventRecord) (w : σ) :
    FailFast (forS3Records d rs w).1 (forS3Records d rs w).2.1 := by
  induction rs generalizing w with
  | nil => simp [forS3Records, FailFast]
  | cons r rest ih =>
    cases hR : d.RecognizeCelebrities ⟨r.BucketName, r.ObjectKey⟩ w with
    | mk res w1 =>
      cases res with
      | error e =>
        simp only [forS3Records, hR]
        exact failFast_single _ e rfl
      | ok out =>
        have hc := forCelebrityFaces_failFast d (d.Getenv "Table") r out.CelebrityFaces w1
        cases hF : forCelebrityFaces d (d.Getenv "Table") r out.CelebrityFaces w1 with
        | mk fr frest =>
          obtain ⟨steps, w2⟩ := frest
          rw [hF] at hc
          cases fr with
          | some e =>
            simp only [forS3Records, hR, hF]
            exact failFast_cons _ (by rfl) _ _ hc
          | none =>
            simp only [forS3Records, hR, hF]
            exact failFast_cons _ (by rfl) _ _ (failFast_append _ hc _ _ (ih w2))

theorem forSQSRecords_failFast {σ : Type} (d : CreatedDeps σ) (ms : List SQSMessage)
    (s3Ev : S3Event) (w : σ) :
    FailFast (forSQSRecords d ms s3Ev w).1 (forSQSRecords d ms s3Ev w).2.1 := by
  induction ms generalizing s3Ev w with
  | nil => simp [forSQSRecords, FailFast]
  | cons m rest ih =>
    cases hJ : jsonUnmarshalS3Event d.decodeRecords m.Body s3Ev with
    | error e =>
      simp only [forSQSRecords, hJ]
      exact failFast_single _ e rfl
    | ok ev1 =>
      have hc := forS3Records_failFast d ev1.Records w
      cases hF : forS3Records d ev1.Records w with
      | mk fr frest =>
        obtain ⟨steps, w1⟩ := frest
        rw [hF] at hc
        cases fr with
        | some e =>
          simp only [forSQSRecords, hJ, hF]
          exact failFast_cons _ (by rfl) _ _ hc
        | none =>
          simp only [forSQSRecords, hJ, hF]
          exact failFast_cons _ (by rfl) _ _ (failFast_append _ hc _ _ (ih ev1 w1))

/-- The steps of an invocation against its result. -/
theorem ImageCreatedHandler_failFast {σ : Type} (d : CreatedDeps σ) (event : SQSEvent) (w : σ) :
    ((ImageCreatedHandler d event w).result = (true, none) ∧
      FailFast none (ImageCreatedHandler d event w).steps) ∨
    ∃ e, (ImageCreatedHandler d event w).result = (false, some e) ∧
      FailFast (some e) (ImageCreatedHandler d event w).steps := by
  have h := forSQSRecords_failFast d event.Records ⟨[], []⟩ w
  cases hF : forSQSRecords d event.Records ⟨[], []⟩ w with
  | mk fr frest =>
    obtain ⟨steps, w1⟩ := frest
    rw [hF] at h
    cases fr with
    | none =>
      left
      have hrun : ImageCreatedHandler d event w = ⟨(true, none), steps, w1⟩ := by
        simp only [ImageCreatedHandler, hF]
      rw [hrun]
      exact ⟨rfl, h⟩
    | some e =>
      right
      have hrun : ImageCreatedHandler d event w = ⟨(false, some e), steps, w1⟩ := by
        simp only [ImageCreatedHandler, hF]
      rw [hrun]
      exact ⟨e, rfl, h⟩

/-- C9. Fail-fast batches.  For every batch and every behaviour of the
collaborators: the handler returns (true, nil) exactly when no step (parsing a
body, a recognition call, a merge update) failed; and when a step failed with
an error, the handler returns (false, that error) and that step is the last
one of the invocation, with no failed step before it: no recognition call and
no merge update follows the failure. -/
theorem ImageCreatedHandler_fail_fast {σ : Type} (d : CreatedDeps σ) (event : SQSEvent) (w : σ) :
    ((ImageCreatedHandler d event w).result = (true, none) ↔
      ∀ s ∈ (ImageCreatedHandler d event w).steps, s.failure = none) ∧
    ∀ s ∈ (ImageCreatedHandler d event w).steps, ∀ e, s.failure = some e →
      (ImageCreatedHandler d event w).result = (false, some e) ∧
      ∃ pre, (ImageCreatedHandler d event w).steps = pre ++ [s] ∧
        ∀ p ∈ pre, p.failure = none := by
  rcases ImageCreatedHandler_failFast d event w with ⟨hr, hf⟩ | ⟨e, hr, hf⟩
  · refine ⟨⟨fun _ => hf, fun _ => hr⟩, ?_⟩
    intro s hs e he
    have := hf s hs
    rw [this] at he
    cases he
  · obtain ⟨pre, last, h1, h2, h3⟩ := hf
    have key : ∀ s ∈ (ImageCreatedHandler d event w).steps, ∀ e2, s.failure = some e2 →
        s = last ∧ e2 = e := by
      intro s hs e2 he2
      rw [h1] at hs
      rcases List.mem_append.1 hs with hp | hl
      · have := h3 s hp
        rw [this] at he2
        cases he2
      · have hsl : s = last := by simpa using hl
        subst hsl
        rw [h2] at he2
        exact ⟨rfl, (Option.some.inj he2).symm⟩
    refine ⟨⟨fun h => ?_, fun h => ?_⟩, ?_⟩
    · rw [hr] at h
      cases h
    · have hl : last ∈ (ImageCreatedHandler d event w).steps := by
        rw [h1]
        simp
      have := h last hl
      rw [h2] at this
      cases this
    · intro s hs e2 he2
      obtain ⟨rfl, rfl⟩ := key s hs e2 he2
      exact ⟨hr, pre, h1, h3⟩

/-! ## Theorems: the append-only index -/

theorem appendOnly_refl (t : Table) : AppendOnly t t :=
  fun _ it h => ⟨it, h, fun l hl => ⟨l, hl, List.prefix_refl l⟩⟩

theorem appendOnly_trans (t1 t2 t3 : Table) (h12 : AppendOnly t1 t2) (h23 : AppendOnly t2 t3) :
    AppendOnly t1 t3 := by
  intro id it h
  obtain ⟨it2, h2, k2⟩ := h12 id it h
  obtain ⟨it3, h3, k3⟩ := h23 id it2 h2
  refine ⟨it3, h3, fun l hl => ?_⟩
  obtain ⟨l2, hl2, p2⟩ := k2 l hl
  obtain ⟨l3, hl3, p3⟩ := k3 l2 hl2
  exact ⟨l3, hl3, p2.trans p3⟩

/-- A merge update the store accepts keeps every record and every stored URL. -/
theorem updateItem_merge_appendOnly (getURL : S3EventRecord → String) (table : String)
    (t t1 : Table) (r : S3EventRecord) (c : Celebrity)
    (h : updateItem t (mergeUpdateInput getURL table r c) = .ok t1) : AppendOnly t t1 := by
  obtain ⟨⟨it1, hit1, himg, _⟩, hother⟩ := updateItem_merge_of_ok getURL table t t1 r c h
  intro id it hit
  by_cases hid : id = c.Id
  · subst hid
    refine ⟨it1, hit1, fun l hl => ⟨_, himg, ?_⟩⟩
    have hu : urlsAt t c.Id = l := by simp [urlsAt, hit, hl]
    rw [hu]
    exact List.prefix_append l _
  · rw [← hother id hid] at hit
    exact ⟨it, hit, fun l hl => ⟨l, hl, List.prefix_refl l⟩⟩

theorem cloudUpdateItem_appendOnly {ρ : Type} (outage : UpdateItemInput → ρ → Option Err × ρ)
    (getURL : S3EventRecord → String) (table : String) (r : S3EventRecord) (c : Celebrity)
    (w : Cloud ρ) :
    AppendOnly w.table (cloudUpdateItem outage (mergeUpdateInput getURL table r c) w).2.table := by
  unfold cloudUpdateItem
  cases hO : outage (mergeUpdateInput getURL table r c) w.rest with
  | mk f rest =>
    cases f with
    | some e => exact appendOnly_refl _
    | none =>
      cases hU : updateItem w.table (mergeUpdateInput getURL table r c) with
      | error e => simp only [hU]; exact appendOnly_refl _
      | ok t1 => simp only [hU]; exact updateItem_merge_appendOnly getURL table _ _ r c hU

theorem forCelebrityFaces_appendOnly {ρ : Type}
    (decode : String → Except Err (Option (List S3RecordText))) (getenv : String → String)
    (getURL : S3EventRecord → String)
    (recognize : RecognizeCelebritiesInput → ρ → Except Err RecognizeCelebritiesOutput × ρ)
    (outage : UpdateItemInput → ρ → Option Err × ρ) (table : String) (r : S3EventRecord)
    (cs : List Celebrity) (w : Cloud ρ) :
    AppendOnly w.table
      (forCelebrityFaces (cloudDeps decode getenv getURL recognize outage) table r cs w).2.2.table := by
  induction cs generalizing w with
  | nil => exact appendOnly_refl _
  | cons c rest ih =>
    have hstep := cloudUpdateItem_appendOnly outage getURL table r c w
    cases hU : cloudUpdateItem outage (mergeUpdateInput getURL table r c) w with
    | mk res w1 =>
      rw [hU] at hstep
      cases res with
      | error e =>
        simp only [forCelebrityFaces, cloudDeps, hU]
        exact hstep
      | ok u =>
        simp only [forCelebrityFaces, cloudDeps, hU]
        exact appendOnly_trans _ _ _ hstep (ih w1)

theorem forS3Records_appendOnly {ρ : Type}
    (decode : String → Except Err (Option (List S3RecordText))) (getenv : String → String)
    (getURL : S3EventRecord → String)
    (recognize : RecognizeCelebritiesInput → ρ → Except Err RecognizeCelebritiesOutput × ρ)
    (outage : UpdateItemInput → ρ → Option Err × ρ) (rs : List S3EventRecord) (w : Cloud ρ) :
    AppendOnly w.table
      (forS3Records (cloudDeps decode getenv getURL recognize outage) rs w).2.2.table := by
  induction rs generalizing w with
  | nil => exact appendOnly_refl _
  | cons r rest ih =>
    cases hR : recognize ⟨r.BucketName, r.ObjectKey⟩ w.rest with
    | mk res rest1 =>
      cases res with
      | error e =>
        simp only [forS3Records, cloudDeps, hR]
        exact appendOnly_refl _
      | ok out =>
        have hc := forCelebrityFaces_appendOnly decode getenv getURL recognize outage
          (getenv "Table") r out.CelebrityFaces ⟨w.table, rest1⟩
        cases hF : forCelebrityFaces (cloudDeps decode getenv getURL recognize outage)
            (getenv "Table") r out.CelebrityFaces ⟨w.table, rest1⟩ with
        | mk fr frest =>
          obtain ⟨steps, w2⟩ := frest
          rw [hF] at hc
          have hF2 : forCelebrityFaces
              { decodeRecords := decode, Getenv := getenv, GetPublicURLFromRecord := getURL,
                RecognizeCelebrities := fun inp c =>
                  match recognize inp c.rest with
                  | (res, r) => (res, ⟨c.table, r⟩),
                UpdateItem := cloudUpdateItem outage }
              (getenv "Table") r out.CelebrityFaces ⟨w.table, rest1⟩ = (fr, steps, w2) := hF
          cases fr with
          | some e =>
            simp only [forS3Records, cloudDeps, hR, hF2]
            exact hc
          | none =>
            simp only [forS3Records, cloudDeps, hR, hF2]
            exact appendOnly_trans _ _ _ hc (ih w2)

theorem forSQSRecords_appendOnly {ρ : Type}
    (decode : String → Except Err (Option (List S3RecordText))) (getenv : String → String)
    (getURL : S3EventRecord → String)
    (recognize : RecognizeCelebritiesInput → ρ → Except Err RecognizeCelebritiesOutput × ρ)
    (outage : UpdateItemInput → ρ → Option Err × ρ) (ms : List SQSMessage) (s3Ev : S3Event)
    (w : Cloud ρ) :
    AppendOnly w.table
      (forSQSRecords (cloudDeps decode getenv getURL recognize outage) ms s3Ev w).2.2.table := by
  induction ms generalizing s3Ev w with
  | nil => exact appendOnly_refl _
  | cons m rest ih =>
    cases hJ : jsonUnmarshalS3Event decode m.Body s3Ev with
    | error e =>
      have hJ2 : jsonUnmarshalS3Event (cloudDeps decode getenv getURL recognize outage).decodeRecords
          m.Body s3Ev = .error e := hJ
      simp only [forSQSRecords, hJ2]
      exact appendOnly_refl _
    | ok ev1 =>
      have hJ2 : jsonUnmarshalS3Event (cloudDeps decode getenv getURL recognize outage).decodeRecords
          m.Body s3Ev = .ok ev1 := hJ
      have hc := forS3Records_appendOnly decode getenv getURL recognize outage ev1.Records w
      cases hF : forS3Records (cloudDeps decode getenv getURL recognize outage) ev1.Records w with
      | mk fr frest =>
        obtain ⟨steps, w1⟩ := frest
        rw [hF] at hc
        cases fr with
        | some e =>
          simp only [forSQSRecords, hJ2, hF]
          exact hc
        | none =>
          simp only [forSQSRecords, hJ2, hF]
          exact appendOnly_trans _ _ _ hc (ih ev1 w1)

theorem ImageCreatedHandler_appendOnly {ρ : Type}
    (decode : String → Except Err (Option (List S3RecordText))) (getenv : String → String)
    (getURL : S3EventRecord → String)
    (recognize : RecognizeCelebritiesInput → ρ → Except Err RecognizeCelebritiesOutput × ρ)
    (outage : UpdateItemInput → ρ → Option Err × ρ) (event : SQSEvent) (w : Cloud ρ) :
    AppendOnly w.table
      (ImageCreatedHandler (cloudDeps decode getenv getURL recognize outage) event w).world.table := by
  have h := forSQSRecords_appendOnly decode getenv getURL recognize outage event.Records ⟨[], []⟩ w
  cases hF : forSQSRecords (cloudDeps decode getenv getURL recognize outage) event.Records ⟨[], []⟩ w with
  | mk fr frest =>
    obtain ⟨steps, w1⟩ := frest
    rw [hF] at h
    cases fr with
    | none =>
      have hrun : ImageCreatedHandler (cloudDeps decode getenv getURL recognize outage) event w
          = ⟨(true, none), steps, w1⟩ := by
        simp only [ImageCreatedHandler, hF]
      rw [hrun]
      exact h
    | some e =>
      have hrun : ImageCreatedHandler (cloudDeps decode getenv getURL recognize outage) event w
          = ⟨(false, some e), steps, w1⟩ := by
        simp only [ImageCreatedHandler, hF]
      rw [hrun]
      exact h

/-- A merge update the store accepts lengthens the sequence by the new URL. -/
theorem updateItem_merge_urlsAt (getURL : S3EventRecord → String) (table : String)
    (t t1 : Table) (r : S3EventRecord) (c : Celebrity)
    (h : updateItem t (mergeUpdateInput getURL table r c) = .ok t1) :
    urlsAt t1 c.Id = urlsAt t c.Id ++ [.S (getURL r)] := by
  obtain ⟨⟨it1, hit1, himg, _⟩, _⟩ := updateItem_merge_of_ok getURL table t t1 r c h
  simp [urlsAt, hit1, himg]

/-- After a merge update the record of the celebrity holds a list, so the next
merge update for the same celebrity is accepted. -/
theorem updateItem_merge_then_ok (getURL : S3EventRecord → String) (table table2 : String)
    (t t1 : Table) (r r2 : S3EventRecord) (c c2 : Celebrity) (hid : c2.Id = c.Id)
    (h : updateItem t (mergeUpdateInput getURL table r c) = .ok t1) :
    ∃ t2, updateItem t1 (mergeUpdateInput getURL table2 r2 c2) = .ok t2 := by
  obtain ⟨⟨it1, hit1, himg, _⟩, _⟩ := updateItem_merge_of_ok getURL table t t1 r c h
  apply updateItem_merge_ok
  intro it s hit hs
  rw [hid, hit1] at hit
  have e : it1 = it := Option.some.inj hit
  rw [← e] at hs
  simp [imagesOf, hs] at himg

/-- C7. Append-only Identity Index.  For every starting index, every batch
and every behaviour of the recognition service and of the store (outages
included), after the handler has run, with success or with failure, every
record is still there and every URL sequence stored before is an initial
segment of the sequence stored now.  Each merge update the store applies puts
exactly one more entry at the end of the sequence, whatever the sequence
already holds, so the same merge applied twice leaves the URL twice. -/
theorem identity_index_append_only {ρ : Type}
    (decode : String → Except Err (Option (List S3RecordText))) (getenv : String → String)
    (getURL : S3EventRecord → String)
    (recognize : RecognizeCelebritiesInput → ρ → Except Err RecognizeCelebritiesOutput × ρ)
    (outage : UpdateItemInput → ρ → Option Err × ρ) (event : SQSEvent) (w : Cloud ρ) :
    (∀ id it, w.table id = some it →
      ∃ it1, (ImageCreatedHandler (cloudDeps decode getenv getURL recognize outage) event
          w).world.table id = some it1 ∧
        ∀ l, imagesOf it = some l → ∃ l1, imagesOf it1 = some l1 ∧ l <+: l1) ∧
    (∀ (t t1 : Table) (table : String) (r : S3EventRecord) (c : Celebrity),
      updateItem t (mergeUpdateInput getURL table r c) = .ok t1 →
        urlsAt t1 c.Id = urlsAt t c.Id ++ [.S (getURL r)] ∧
        (urlsAt t1 c.Id).length = (urlsAt t c.Id).length + 1) ∧
    (∀ (t t2 : Table) (table : String) (r : S3EventRecord) (c : Celebrity),
      applySchedule t [mergeUpdateInput getURL table r c, mergeUpdateInput getURL table r c]
          = .ok t2 →
        urlsAt t2 c.Id = urlsAt t c.Id ++ [.S (getURL r), .S (getURL r)]) ∧
    (∀ (table : String) (r : S3EventRecord) (c : Celebrity),
      ∃ t2, applySchedule emptyTable
          [mergeUpdateInput getURL table r c, mergeUpdateInput getURL table r c] = .ok t2 ∧
        urlsAt t2 c.Id = [.S (getURL r), .S (getURL r)]) := by
  have twice : ∀ (t t2 : Table) (table : String) (r : S3EventRecord) (c : Celebrity),
      applySchedule t [mergeUpdateInput getURL table r c, mergeUpdateInput getURL table r c]
          = .ok t2 →
        urlsAt t2 c.Id = urlsAt t c.Id ++ [.S (getURL r), .S (getURL r)] := by
    intro t t2 table r c h
    simp only [applySchedule] at h
    cases h1 : updateItem t (mergeUpdateInput getURL table r c) with
    | error e => rw [h1] at h; cases h
    | ok t1 =>
      rw [h1] at h
      simp only at h
      cases h2 : updateItem t1 (mergeUpdateInput getURL table r c) with
      | error e => rw [h2] at h; cases h
      | ok t3 =>
        rw [h2] at h
        simp only [Except.ok.injEq] at h
        subst h
        rw [updateItem_merge_urlsAt getURL table t1 t3 r c h2,
          updateItem_merge_urlsAt getURL table t t1 r c h1]
        simp
  refine ⟨ImageCreatedHandler_appendOnly decode getenv getURL recognize outage event w, ?_,
    twice, ?_⟩
  · intro t t1 table r c h
    have := updateItem_merge_urlsAt getURL table t t1 r c h
    rw [this]
    simp
  · intro table r c
    obtain ⟨t1, h1⟩ := updateItem_merge_ok getURL table emptyTable r c
      (fun it s h => by simp [emptyTable] at h)
    obtain ⟨t2, h2⟩ := updateItem_merge_then_ok getURL table table emptyTable t1 r r c c rfl h1
    have hs : applySchedule emptyTable
        [mergeUpdateInput getURL table r c, mergeUpdateInput getURL table r c] = .ok t2 := by
      simp [applySchedule, h1, h2]
    refine ⟨t2, hs, ?_⟩
    rw [twice emptyTable t2 table r c hs]
    simp [urlsAt, emptyTable]

/-! ## Theorems: concurrent writers -/

theorem mem_of_mem_interleavings {α : Type} (xs ys sched : List α)
    (h : sched ∈ interleavings xs ys) (a : α) : a ∈ sched ↔ a ∈ xs ∨ a ∈ ys := by
  induction xs, ys using interleavings.induct generalizing sched with
  | case1 ys =>
    simp only [interleavings, List.mem_singleton] at h
    subst h
    simp
  | case2 x xs =>
    simp only [interleavings, List.mem_singleton] at h
    subst h
    simp
  | case3 x xs y ys ih1 ih2 =>
    simp only [interleavings, List.mem_append, List.mem_map] at h
    rcases h with ⟨s, hs, rfl⟩ | ⟨s, hs, rfl⟩
    · have := ih1 s hs
      simp only [List.mem_cons] at this ⊢
      rw [this]
      tauto
    · have := ih2 s hs
      simp only [List.mem_cons] at this ⊢
      rw [this]
      tauto

/-- The sequences only grow under an accepted merge update. -/
theorem updateItem_merge_urlsAt_mono (getURL : S3EventRecord → String) (table : String)
    (t t1 : Table) (r : S3EventRecord) (c : Celebrity)
    (h : updateItem t (mergeUpdateInput getURL table r c) = .ok t1) (id : String) :
    urlsAt t id <+: urlsAt t1 id := by
  by_cases hid : id = c.Id
  · subst hid
    rw [updateItem_merge_urlsAt getURL table t t1 r c h]
    exact List.prefix_append _ _
  · have := (updateItem_merge_of_ok getURL table t t1 r c h).2 id hid
    simp [urlsAt, this]

/-- No record of the table holds a string where the URL list belongs. -/
theorem updateItem_merge_keeps_lists (getURL : S3EventRecord → String) (table : String)
    (t t1 : Table) (r : S3EventRecord) (c : Celebrity)
    (h : updateItem t (mergeUpdateInput getURL table r c) = .ok t1)
    (hwf : ∀ id it s, t id = some it → getAttr it "celeb_images" ≠ some (.S s)) :
    ∀ id it s, t1 id = some it → getAttr it "celeb_images" ≠ some (.S s) := by
  obtain ⟨⟨it1, hit1, himg, _⟩, hother⟩ := updateItem_merge_of_ok getURL table t t1 r c h
  intro id it s hit hs
  by_cases hid : id = c.Id
  · subst hid
    rw [hit1] at hit
    have e : it1 = it := Option.some.inj hit
    rw [← e] at hs
    simp [imagesOf, hs] at himg
  · rw [hother id hid] at hit
    exact hwf id it s hit hs

/-- Any sequence of merge updates (any number of them, for any celebrities),
received by a well-typed table in any order, is accepted as a whole and the
final table holds the URL of every one of them under its celebrity. -/
theorem applySchedule_merges (getURL : S3EventRecord → String) (sched : List UpdateItemInput)
    (t : Table) (hwf : ∀ id it s, t id = some it → getAttr it "celeb_images" ≠ some (.S s))
    (hm : ∀ m ∈ sched, ∃ tb r c, m = mergeUpdateInput getURL tb r c) :
    ∃ t1, applySchedule t sched = .ok t1 ∧ (∀ id, urlsAt t id <+: urlsAt t1 id) ∧
      ∀ tb r c, mergeUpdateInput getURL tb r c ∈ sched →
        AttributeValue.S (getURL r) ∈ urlsAt t1 c.Id := by
  induction sched generalizing t with
  | nil => exact ⟨t, rfl, fun _ => List.prefix_refl _, by simp⟩
  | cons m rest ih =>
    obtain ⟨tb0, r0, c0, rfl⟩ := hm _ (List.mem_cons_self _ _)
    obtain ⟨t1, h1⟩ := updateItem_merge_ok getURL tb0 t r0 c0 (fun it s => hwf c0.Id it s)
    have hwf1 := updateItem_merge_keeps_lists getURL tb0 t t1 r0 c0 h1 hwf
    obtain ⟨t2, h2, hmono, hall⟩ := ih t1 hwf1 (fun m hmem => hm m (List.mem_cons_of_mem _ hmem))
    refine ⟨t2, by simp [applySchedule, h1, h2], ?_, ?_⟩
    · intro id
      exact (updateItem_merge_urlsAt_mono getURL tb0 t t1 r0 c0 h1 id).trans (hmono id)
    · intro tb r c hmem
      rcases List.mem_cons.1 hmem with heq | hmem
      · have hk : c.Id = c0.Id ∧ getURL r = getURL r0 := by
          have h3 := congrArg UpdateItemInput.Key heq
          have h4 := congrArg UpdateItemInput.ExpressionAttributeValues heq
          simp [mergeUpdateInput] at h3 h4
          exact ⟨h3, h4.2⟩
        have hin : AttributeValue.S (getURL r0) ∈ urlsAt t1 c0.Id := by
          rw [updateItem_merge_urlsAt getURL tb0 t t1 r0 c0 h1]
          simp
        rw [hk.1, hk.2]
        exact (hmono c0.Id).subset hin
      · exact hall tb r c hmem

/-- C8. No lost update.  Starting from an empty Identity Index, the merge
updates of two invocations for the same identity id, one with URL A and one
with URL B, each reaching the store as one UpdateItem step, leave under every
interleaving of the two a record for the id whose URL sequence holds both A
and B. -/
theorem concurrent_merges_keep_both (getURL : S3EventRecord → String) (table : String)
    (rA rB : S3EventRecord) (cA cB : Celebrity) (hid : cA.Id = cB.Id)
    (sched : List UpdateItemInput)
    (hs : sched ∈ interleavings [mergeUpdateInput getURL table rA cA]
      [mergeUpdateInput getURL table rB cB]) :
    ∃ t it l, applySchedule emptyTable sched = .ok t ∧ t cA.Id = some it ∧
      imagesOf it = some l ∧ AttributeValue.S (getURL rA) ∈ l ∧
      AttributeValue.S (getURL rB) ∈ l := by
  have hmem := mem_of_mem_interleavings _ _ sched hs
  obtain ⟨t, ht, _, hall⟩ := applySchedule_merges getURL sched emptyTable
    (fun id it s h => by simp [emptyTable] at h)
    (fun m hm => by
      rcases (hmem m).1 hm with h | h
      · exact ⟨table, rA, cA, by simpa using h⟩
      · exact ⟨table, rB, cB, by simpa using h⟩)
  have hA := hall table rA cA ((hmem _).2 (Or.inl (by simp)))
  have hB := hall table rB cB ((hmem _).2 (Or.inr (by simp)))
  rw [← hid] at hB
  cases hrec : t cA.Id with
  | none => simp [urlsAt, hrec] at hA
  | some it =>
    cases himg : imagesOf it with
    | none => simp [urlsAt, hrec, himg] at hA
    | some l =>
      refine ⟨t, it, l, ht, hrec, himg, ?_, ?_⟩
      · simpa [urlsAt, hrec, himg] using hA
      · simpa [urlsAt, hrec, himg] using hB

theorem concurrent_merges_keep_both_witness :
    ∃ t it l, applySchedule emptyTable
        [mergeUpdateInput (fun r => r.ObjectKey) "celebs" ⟨"us-east-1", "testbucket", "B"⟩
          ⟨"C1", "Jane"⟩,
         mergeUpdateInput (fun r => r.ObjectKey) "celebs" ⟨"us-east-1", "testbucket", "A"⟩
          ⟨"C1", "Jane"⟩] = .ok t ∧
      t "C1" = some it ∧ imagesOf it = some l ∧ AttributeValue.S "A" ∈ l ∧
      AttributeValue.S "B" ∈ l :=
  concurrent_merges_keep_both (fun r => r.ObjectKey) "celebs" ⟨"us-east-1", "testbucket", "A"⟩
    ⟨"us-east-1", "testbucket", "B"⟩ ⟨"C1", "Jane"⟩ ⟨"C1", "Jane"⟩ rfl _
    (by simp [interleavings])

/-! ## Theorems: which objects a batch analyses -/

theorem recognitionCalls_append (a b : List CreatedStep) :
    recognitionCalls (a ++ b) = recognitionCalls a ++ recognitionCalls b := by
  induction a with
  | nil => rfl
  | cons s rest ih => cases s <;> simp [recognitionCalls, ih]

theorem mergeUpdates_append (a b : List CreatedStep) :
    mergeUpdates (a ++ b) = mergeUpdates a ++ mergeUpdates b := by
  induction a with
  | nil => rfl
  | cons s rest ih => cases s <;> simp [mergeUpdates, ih]

/-- With a store that accepts every update, the loop over the recognised
celebrities issues one merge update for each, in the order of the list, and
makes no recognition call. -/
theorem forCelebrityFaces_all_ok {σ : Type} (d : CreatedDeps σ) (table : String)
    (r : S3EventRecord) (cs : List Celebrity) (w : σ)
    (hU : ∀ inp s, (d.UpdateItem inp s).1 = .ok ()) :
    (forCelebrityFaces d table r cs w).1 = none ∧
    mergeUpdates (forCelebrityFaces d table r cs w).2.1 =
      cs.map (mergeUpdateInput d.GetPublicURLFromRecord table r) ∧
    recognitionCalls (forCelebrityFaces d table r cs w).2.1 = [] := by
  induction cs generalizing w with
  | nil => simp [forCelebrityFaces, mergeUpdates, recognitionCalls]
  | cons c rest ih =>
    cases hc : d.UpdateItem (mergeUpdateInput d.GetPublicURLFromRecord table r c) w with
    | mk res w1 =>
      have h1 := hU (mergeUpdateInput d.GetPublicURLFromRecord table r c) w
      rw [hc] at h1
      simp only at h1
      subst h1
      obtain ⟨i1, i2, i3⟩ := ih w1
      simp only [forCelebrityFaces, hc, mergeUpdates, recognitionCalls, List.map_cons]
      exact ⟨i1, by rw [i2], i3⟩

/-- With services that always answer, the loop over the object records calls
the Recognition Service once for each record, in order. -/
theorem forS3Records_all_ok {σ : Type} (d : CreatedDeps σ) (rs : List S3EventRecord) (w : σ)
    (hR : ∀ inp s, ∃ out, (d.RecognizeCelebrities inp s).1 = .ok out)
    (hU : ∀ inp s, (d.UpdateItem inp s).1 = .ok ()) :
    (forS3Records d rs w).1 = none ∧
    recognitionCalls (forS3Records d rs w).2.1 = rs.map recognitionInputOf := by
  induction rs generalizing w with
  | nil => simp [forS3Records, recognitionCalls]
  | cons r rest ih =>
    cases hc : d.RecognizeCelebrities ⟨r.BucketName, r.ObjectKey⟩ w with
    | mk res w1 =>
      obtain ⟨out, h1⟩ := hR ⟨r.BucketName, r.ObjectKey⟩ w
      rw [hc] at h1
      simp only at h1
      subst h1
      obtain ⟨f1, _, f3⟩ := forCelebrityFaces_all_ok d (d.Getenv "Table") r out.CelebrityFaces w1 hU
      cases hF : forCelebrityFaces d (d.Getenv "Table") r out.CelebrityFaces w1 with
      | mk fr frest =>
        obtain ⟨steps, w2⟩ := frest
        rw [hF] at f1 f3
        simp only at f1 f3
        subst f1
        obtain ⟨i1, i2⟩ := ih w2
        simp only [forS3Records, hc, hF, recognitionCalls, recognitionCalls_append, f3, i2,
          List.map_cons, recognitionInputOf, List.nil_append]
        exact ⟨i1, trivial⟩

/-- One object record, with services that always answer: the merge updates
are one for each recognised celebrity, in the order the Recognition Service
returned them; the unrecognised faces give none. -/
theorem forS3Records_single_merges {σ : Type} (d : CreatedDeps σ) (r : S3EventRecord) (w w1 : σ)
    (out : RecognizeCelebritiesOutput)
    (hR : d.RecognizeCelebrities ⟨r.BucketName, r.ObjectKey⟩ w = (.ok out, w1))
    (hU : ∀ inp s, (d.UpdateItem inp s).1 = .ok ()) :
    mergeUpdates (forS3Records d [r] w).2.1 =
      out.CelebrityFaces.map (mergeUpdateInput d.GetPublicURLFromRecord (d.Getenv "Table") r) := by
  obtain ⟨f1, f2, _⟩ := forCelebrityFaces_all_ok d (d.Getenv "Table") r out.CelebrityFaces w1 hU
  cases hF : forCelebrityFaces d (d.Getenv "Table") r out.CelebrityFaces w1 with
  | mk fr frest =>
    obtain ⟨steps, w2⟩ := frest
    rw [hF] at f1 f2
    simp only at f1 f2
    subst f1
    simp [forS3Records, hR, hF, mergeUpdates, mergeUpdates_append, f2]

/-- Elements that set every field decode to the same records whatever the
backing array holds. -/
theorem decodeArray_of_complete (js : List S3RecordText) (backing : List S3EventRecord)
    (hc : ∀ j ∈ js, j.AWSRegion ≠ none ∧ j.BucketName ≠ none ∧ j.ObjectKey ≠ none) :
    decodeArray js backing = decodeArray js [] := by
  induction js generalizing backing with
  | nil => cases backing <;> rfl
  | cons j rest ih =>
    obtain ⟨h1, h2, h3⟩ := hc j (List.mem_cons_self _ _)
    obtain ⟨a, b, c⟩ := j
    cases a with
    | none => exact absurd rfl h1
    | some a =>
      cases b with
      | none => exact absurd rfl h2
      | some b =>
        cases c with
        | none => exact absurd rfl h3
        | some c =>
          have hrest := fun bs => ih bs (fun x hx => hc x (List.mem_cons_of_mem _ hx))
          cases backing with
          | nil => rfl
          | cons b0 bs => simp [decodeArray, decodeInto, hrest bs]

/-- A body whose member `Records` sets every field of every element is
unmarshalled to its own records, whatever the variable held. -/
theorem jsonUnmarshalS3Event_of_complete {σ : Type} (d : CreatedDeps σ) (m : SQSMessage)
    (s3Ev : S3Event) (js : List S3RecordText) (hjs : d.decodeRecords m.Body = .ok (some js))
    (hc : ∀ j ∈ js, j.AWSRegion ≠ none ∧ j.BucketName ≠ none ∧ j.ObjectKey ≠ none) :
    ∃ ev1, jsonUnmarshalS3Event d.decodeRecords m.Body s3Ev = .ok ev1 ∧
      ev1.Records = ownRecords d m := by
  cases js with
  | nil => exact ⟨⟨[], []⟩, by simp [jsonUnmarshalS3Event, hjs], by simp [ownRecords, hjs, decodeArray]⟩
  | cons j rest =>
    refine ⟨⟨decodeArray (j :: rest) (s3Ev.Records ++ s3Ev.spare),
      (s3Ev.Records ++ s3Ev.spare).drop (j :: rest).length⟩,
      by simp only [jsonUnmarshalS3Event, hjs], ?_⟩
    simp only [ownRecords, hjs]
    exact decodeArray_of_complete _ _ hc

/-- When the body of every message has a member `Records` whose elements set
every field the handler reads, and the services always answer, the recognition
calls of the batch are those of the bodies, message after message. -/
theorem forSQSRecords_all_ok {σ : Type} (d : CreatedDeps σ) (ms : List SQSMessage)
    (s3Ev : S3Event) (w : σ)
    (hB : ∀ m ∈ ms, ∃ js, d.decodeRecords m.Body = .ok (some js) ∧
      ∀ j ∈ js, j.AWSRegion ≠ none ∧ j.BucketName ≠ none ∧ j.ObjectKey ≠ none)
    (hR : ∀ inp s, ∃ out, (d.RecognizeCelebrities inp s).1 = .ok out)
    (hU : ∀ inp s, (d.UpdateItem inp s).1 = .ok ()) :
    (forSQSRecords d ms s3Ev w).1 = none ∧
    recognitionCalls (forSQSRecords d ms s3Ev w).2.1 = expectedRecognitionCalls d ms := by
  induction ms generalizing s3Ev w with
  | nil => simp [forSQSRecords, recognitionCalls, expectedRecognitionCalls]
  | cons m rest ih =>
    obtain ⟨js, hjs, hc⟩ := hB m (List.mem_cons_self _ _)
    obtain ⟨ev1, hev, hown⟩ := jsonUnmarshalS3Event_of_complete d m s3Ev js hjs hc
    obtain ⟨f1, f2⟩ := forS3Records_all_ok d ev1.Records w hR hU
    cases hF : forS3Records d ev1.Records w with
    | mk fr frest =>
      obtain ⟨steps, w1⟩ := frest
      rw [hF] at f1 f2
      simp only at f1 f2
      subst f1
      obtain ⟨i1, i2⟩ := ih ev1 w1 (fun x hx => hB x (List.mem_cons_of_mem _ hx))
      rw [hown] at f2
      simp only [forSQSRecords, hev, hF, recognitionCalls, recognitionCalls_append, f2, i2,
        expectedRecognitionCalls]
      exact ⟨i1, trivial⟩

/-- The same hoisted variable, seen on a record that gives its key alone: after
a notification for `testbucket/u0.jpg`, the record of the next message is
decoded into the record the first one left and takes its bucket, so the
recognition call is made for `testbucket/k2.png`, where the body of the
message on its own names no bucket. -/
theorem ImageCreatedHandler_record_inherits_fields :
    expectedRecognitionCalls demoCreatedDeps [⟨bodyOneRecord⟩, ⟨bodyKeyOnly⟩]
      = [⟨"testbucket", "u0.jpg"⟩, ⟨"", "k2.png"⟩] ∧
    recognitionCalls (ImageCreatedHandler demoCreatedDeps ⟨[⟨bodyOneRecord⟩, ⟨bodyKeyOnly⟩]⟩
      ⟨emptyTable, true⟩).steps = [⟨"testbucket", "u0.jpg"⟩, ⟨"testbucket", "k2.png"⟩] :=
  ⟨rfl, rfl⟩

/-- C10, at the batch of a notification with one object record followed by the
S3 test notification (valid JSON without `Records`), with every call
succeeding: the handler returns (true, nil); the bodies carry one object record
in all, so one recognition call is due; the handler calls the Recognition
Service twice for that object, issues the merge update twice and leaves its
URL twice under the celebrity. -/
theorem ImageCreatedHandler_replays_previous_records :
    (ImageCreatedHandler demoCreatedDeps ⟨[⟨bodyOneRecord⟩, ⟨bodyTestEvent⟩]⟩
      ⟨emptyTable, true⟩).result = (true, none) ∧
    expectedRecognitionCalls demoCreatedDeps [⟨bodyOneRecord⟩, ⟨bodyTestEvent⟩]
      = [⟨"testbucket", "u0.jpg"⟩] ∧
    recognitionCalls (ImageCreatedHandler demoCreatedDeps ⟨[⟨bodyOneRecord⟩, ⟨bodyTestEvent⟩]⟩
      ⟨emptyTable, true⟩).steps = [⟨"testbucket", "u0.jpg"⟩, ⟨"testbucket", "u0.jpg"⟩] ∧
    mergeUpdates (ImageCreatedHandler demoCreatedDeps ⟨[⟨bodyOneRecord⟩, ⟨bodyTestEvent⟩]⟩
      ⟨emptyTable, true⟩).steps =
      [mergeUpdateInput demoCreatedDeps.GetPublicURLFromRecord "celebs" demoRecord ⟨"C1", "Jane"⟩,
       mergeUpdateInput demoCreatedDeps.GetPublicURLFromRecord "celebs" demoRecord ⟨"C1", "Jane"⟩] ∧
    urlsAt (ImageCreatedHandler demoCreatedDeps ⟨[⟨bodyOneRecord⟩, ⟨bodyTestEvent⟩]⟩
      ⟨emptyTable, true⟩).world.table "C1" =
      [.S "http://testbucket.s3-us-east-1.amazonaws.com/u0.jpg",
       .S "http://testbucket.s3-us-east-1.amazonaws.com/u0.jpg"] := by
  refine ⟨rfl, rfl, rfl, rfl, rfl⟩

end WhoIsIt
